import Mathlib

/-!
Verification development for the codex-watcher repository.

The Go sources under internal/indexer (indexer.go) and internal/search
(search.go) are shallowly embedded below.  Go strings are modelled as lists
of unicode code points; where Go operates on raw UTF-8 bytes (the search
result preview truncation) an explicit UTF-8 encoder is used.  Modelling
restrictions that do not affect any verified statement are recorded in
comments next to the affected definition.
-/

set_option autoImplicit false

namespace CodexWatcher

/-- A Go string, modelled as its sequence of unicode code points (runes). -/
abbrev Str := List Char

/-- Literal helper: the rune sequence of a Lean string literal. -/
def gs (s : String) : Str := s.data

/-- Whitespace classifier used by Go unicode.IsSpace in the Latin-1 range
(higher Unicode space code points are not modelled; no input in this
development contains them). -/
def goIsSpaceChar (c : Char) : Bool :=
  c = ' ' || c = '\t' || c = '\n' || (c = Char.ofNat 11) || (c = Char.ofNat 12) ||
  c = '\r' || (c = Char.ofNat 133) || (c = Char.ofNat 160)

/-- strings.TrimSpace. -/
def goTrimSpace (s : Str) : Str :=
  ((s.dropWhile goIsSpaceChar).reverse.dropWhile goIsSpaceChar).reverse

/-- ASCII lower-casing of one rune (strings.ToLower; non-ASCII case mappings
are not modelled, no input in this development needs them). -/
def asciiLower (c : Char) : Char :=
  if 'A' ≤ c && c ≤ 'Z' then Char.ofNat (c.toNat + 32) else c

/-- ASCII upper-casing of one rune. -/
def asciiUpper (c : Char) : Char :=
  if 'a' ≤ c && c ≤ 'z' then Char.ofNat (c.toNat - 32) else c

/-- strings.ToLower. -/
def goToLower (s : Str) : Str := s.map asciiLower

/-- strings.HasPrefix. -/
def hasPref : Str → Str → Bool
  | [], _ => true
  | _ :: _, [] => false
  | p :: ps, c :: cs => p = c && hasPref ps cs

/-- strings.HasSuffix. -/
def hasSuf (p s : Str) : Bool := hasPref p.reverse s.reverse

/-- strings.Contains (substring test). -/
def containsSub (s sub : Str) : Bool :=
  hasPref sub s ||
    match s with
    | [] => false
    | _ :: t => containsSub t sub

/-- strings.Index: first index of a substring, none when absent. -/
def firstIndexSub (s sub : Str) : Option Nat :=
  if hasPref sub s then some 0
  else
    match s with
    | [] => none
    | _ :: t => (firstIndexSub t sub).map (· + 1)

/-- Count occurrences of one rune (strings.Count with a single-rune needle). -/
def countChar (s : Str) (c : Char) : Nat := (s.filter (· = c)).length

/-- Fuel-driven scan of strings.ReplaceAll; every step consumes at least
one rune, so the initial fuel of length plus one never runs out. -/
def replaceAllF : Nat → Str → Str → Str → Str
  | 0, s, _, _ => s
  | fuel + 1, s, pat, rep =>
    match s with
    | [] => []
    | c :: t =>
      if pat ≠ [] ∧ hasPref pat (c :: t) then
        rep ++ replaceAllF fuel (List.drop pat.length (c :: t)) pat rep
      else
        c :: replaceAllF fuel t pat rep

/-- strings.ReplaceAll (needle assumed non-empty, as at every call site). -/
def replaceAll (s pat rep : Str) : Str :=
  replaceAllF (s.length + 1) s pat rep

/-- strings.TrimSuffix. -/
def trimSuf (s suf : Str) : Str :=
  if hasSuf suf s then s.take (s.length - suf.length) else s

/-- strings.TrimRight with a single-rune cut set. -/
def trimRightChar (s : Str) (c : Char) : Str :=
  (s.reverse.dropWhile (· = c)).reverse

/-- Lexicographic byte-order comparison of Go strings (sort.Strings order);
code-point order coincides with byte order for UTF-8. -/
def strLt : Str → Str → Bool
  | [], [] => false
  | [], _ :: _ => true
  | _ :: _, [] => false
  | a :: as, b :: bs => if a = b then strLt as bs else decide (a < b)

/-- Insert into a sorted list of strings (models append followed by
sort.Strings on an already-sorted list). -/
def sortedInsertStr (x : Str) : List Str → List Str
  | [] => [x]
  | y :: ys => if strLt x y then x :: y :: ys else y :: sortedInsertStr x ys

/-- UTF-8 encoding of one rune, as byte values. -/
def utf8Bytes (c : Char) : List Nat :=
  let n := c.toNat
  if n < 0x80 then [n]
  else if n < 0x800 then [0xC0 + n / 64, 0x80 + n % 64]
  else if n < 0x10000 then [0xE0 + n / 4096, 0x80 + (n / 64) % 64, 0x80 + n % 64]
  else [0xF0 + n / 262144, 0x80 + (n / 4096) % 64, 0x80 + (n / 64) % 64, 0x80 + n % 64]

/-- UTF-8 encoding of a Go string: the byte sequence Go indexes and slices. -/
def utf8Encode (s : Str) : List Nat := s.flatMap utf8Bytes

/-- Split at the first occurrence of a rune: returns the part before it and
the remainder beginning with that rune (remainder empty when absent). -/
def spanUntilChar (c : Char) : Str → (Str × Str)
  | [] => ([], [])
  | x :: t =>
    if x = c then ([], x :: t)
    else
      let p := spanUntilChar c t
      (x :: p.1, p.2)

namespace Search

/-! Embedding of internal/search/search.go. -/

/-- search.go isSpace: the byte classifier used by the query tokenizer. -/
def isSpace (b : Char) : Bool := b = ' ' || b = '\t' || b = '\n' || b = '\r'

/-- search.go isKnownField. -/
def isKnownField (f : Str) : Bool :=
  f = gs "role" || f = gs "type" || f = gs "model" ||
  f = gs "cwd" || f = gs "cwd_base" || f = gs "in"

/-- ASCII letter test used for regex-literal flags in tokenize. -/
def isAsciiLetter (c : Char) : Bool :=
  ('a' ≤ c && c ≤ 'z') || ('A' ≤ c && c ≤ 'Z')

/-- One token produced by tokenize. -/
structure Token where
  raw : Str := []
  negative : Bool := false
  isOR : Bool := false
  isField : Bool := false
  field : Str := []
deriving DecidableEq, Repr, Inhabited

/-- Classification of a bare/quoted/regex token segment once the leading
negation and whitespace have been handled; mirrors the body of the scan
loop of tokenize.  The argument is the unconsumed input starting at the
first rune of the token. -/
def tokSeg (neg : Bool) (s : Str) : Token × Str :=
  match s with
  | [] => (default, [])
  | d :: r1 =>
    if d = '"' then
      -- phrase: scan to the closing quote (or end of input)
      let p := spanUntilChar '"' r1
      let rem := match p.2 with | [] => [] | _ :: t => t
      ({ raw := '"' :: (p.1 ++ ['"']), negative := neg }, rem)
    else if d = '/' then
      -- regex literal /pattern/flags; an unterminated literal swallows the rest
      let p := spanUntilChar '/' r1
      match p.2 with
      | [] => ({ raw := '/' :: p.1, negative := neg }, [])
      | _ :: afterSlash =>
        let flags := afterSlash.takeWhile isAsciiLetter
        let rem := afterSlash.dropWhile isAsciiLetter
        ({ raw := '/' :: (p.1 ++ '/' :: flags), negative := neg }, rem)
    else
      -- general token up to the next space
      let raw := d :: r1.takeWhile (fun ch => !isSpace ch)
      let rem := r1.dropWhile (fun ch => !isSpace ch)
      if raw = gs "OR" then ({ isOR := true }, rem)
      else
        match firstIndexSub raw [':'] with
        | some k =>
          if 0 < k ∧ isKnownField (goToLower (raw.take k)) then
            ({ raw := raw.drop (k + 1), negative := neg, isField := true,
               field := goToLower (raw.take k) }, rem)
          else ({ raw := raw, negative := neg }, rem)
        | none => ({ raw := raw, negative := neg }, rem)

/-- search.go tokenize, written as a fuel-driven consuming scan over the
rune list.  The source walks an index i over a fixed string; each loop
iteration here consumes the same runes from the front, at least one per
step, so the initial fuel of length plus one never runs out. -/
def tokLoopF : Nat → Str → List Token
  | 0, _ => []
  | _ + 1, [] => []
  | fuel + 1, c :: rest =>
    if isSpace c then tokLoopF fuel rest
    else if c = '-' then
      -- negation: consume the minus sign and any following spaces
      if rest.dropWhile isSpace = [] then []
      else
        (tokSeg true (rest.dropWhile isSpace)).1 ::
          tokLoopF fuel (tokSeg true (rest.dropWhile isSpace)).2
    else
      (tokSeg false (c :: rest)).1 :: tokLoopF fuel (tokSeg false (c :: rest)).2

/-- search.go tokenize: trims the raw query then scans it. -/
def tokenize (s : Str) : List Token :=
  tokLoopF ((goTrimSpace s).length + 1) (goTrimSpace s)

/-- The extent of the one token opened at the head of r, where r is the
text standing before an unmatched double quote: mirrors the three
token-extent computations of the scan (phrase to its closing quote, regex
literal to its closing slash plus trailing letter flags, bare token to the
next space) under the convention that the rune following r is that double
quote - which is not a space, not a letter and closes no phrase here
because it is the quote under study.  Returns the rest of r after the
token, or none when the token's extent would run past r and swallow the
quote (a bare token or regex flags touching it, an unterminated phrase or
regex literal before it). -/
def tokStepPre (r : Str) : Option Str :=
  match r with
  | [] => none
  | d :: r1 =>
    if d = '"' then
      match (spanUntilChar '"' r1).2 with
      | [] => none
      | _ :: t => some t
    else if d = '/' then
      match (spanUntilChar '/' r1).2 with
      | [] => none
      | _ :: afterSlash => some (afterSlash.dropWhile isAsciiLetter)
    else
      if r1.dropWhile (fun ch => !isSpace ch) = [] then none
      else some (r1.dropWhile (fun ch => !isSpace ch))

/-- Whether, scanning the text a that stands before an unmatched double
quote, the tokenize loop consumes a completely and arrives at the quote at
the start of a token; mirrors the loop steps of the scan (skip a space,
consume a negation sign with its following spaces, consume one complete
token) and returns the pending negation flag the quote is reached with -
none when an earlier token swallows the quote instead. -/
def reachesQuote : Nat → Str → Option Bool
  | 0, _ => none
  | _ + 1, [] => some false
  | fuel + 1, c :: rest =>
    if isSpace c then reachesQuote fuel rest
    else if c = '-' then
      if rest.dropWhile isSpace = [] then some true
      else
        match tokStepPre (rest.dropWhile isSpace) with
        | none => none
        | some r2 => reachesQuote fuel r2
    else
      match tokStepPre (c :: rest) with
      | none => none
      | some r2 => reachesQuote fuel r2

/-! Model of the compiled regular expressions produced by regexp.Compile.
Only the constructs reachable through the query DSL are modelled; a pattern
outside this grammar is conservatively treated as failing to compile, which
is the same degradation path the source routes genuine compile errors
through (safeCompile returning nil). -/

/-- One item of a bracket character class. -/
inductive ClsItem where
  | one (c : Char)
  | range (lo hi : Char)
  | posix (name : Str)
deriving DecidableEq, Repr

/-- Regular-expression abstract syntax. -/
inductive RE where
  | eps
  | chr (c : Char)
  | dot
  | cat (a b : RE)
  | alt (a b : RE)
  | star (a : RE)
  | cls (negated : Bool) (items : List ClsItem)
deriving DecidableEq, Repr

/-- The regex that matches nothing: an empty positive character class. -/
def RE.fail : RE := .cls false []

/-- POSIX named-class membership (the names emitted by
normalizePCREtoRE2 plus a few common ones). -/
def posixMatch (name : Str) (c : Char) : Bool :=
  if name = gs "space" then
    c = ' ' || c = '\t' || c = '\n' || c = Char.ofNat 11 || c = Char.ofNat 12 || c = '\r'
  else if name = gs "digit" then '0' ≤ c && c ≤ '9'
  else if name = gs "alpha" then isAsciiLetter c
  else if name = gs "alnum" then isAsciiLetter c || ('0' ≤ c && c ≤ '9')
  else if name = gs "upper" then 'A' ≤ c && c ≤ 'Z'
  else if name = gs "lower" then 'a' ≤ c && c ≤ 'z'
  else false

def clsItemMatch (it : ClsItem) (c : Char) : Bool :=
  match it with
  | .one d => c = d
  | .range lo hi => lo ≤ c && c ≤ hi
  | .posix name => posixMatch name c

/-- Class membership; under the i flag a rune matches if any case variant
does (ASCII case folding). -/
def clsMatch (ci negated : Bool) (items : List ClsItem) (c : Char) : Bool :=
  let base := fun d => items.any (fun it => clsItemMatch it d)
  let m := base c || (ci && (base (asciiLower c) || base (asciiUpper c)))
  if negated then !m else m

/-- Rune comparison under optional ASCII case folding. -/
def charEqCI (ci : Bool) (p c : Char) : Bool :=
  p = c || (ci && asciiLower p = asciiLower c)

/-- Whether the regex accepts the empty string. -/
def RE.nullable : RE → Bool
  | .eps => true
  | .chr _ => false
  | .dot => false
  | .cat a b => a.nullable && b.nullable
  | .alt a b => a.nullable || b.nullable
  | .star _ => true
  | .cls _ _ => false

/-- Brzozowski derivative with respect to one rune. -/
def RE.deriv (ci : Bool) (r : RE) (c : Char) : RE :=
  match r with
  | .eps => .fail
  | .chr p => if charEqCI ci p c then .eps else .fail
  | .dot => if c = '\n' then .fail else .eps
  | .cat a b =>
    if a.nullable then .alt (.cat (a.deriv ci c) b) (b.deriv ci c)
    else .cat (a.deriv ci c) b
  | .alt a b => .alt (a.deriv ci c) (b.deriv ci c)
  | .star a => .cat (a.deriv ci c) (.star a)
  | .cls neg items => if clsMatch ci neg items c then .eps else .fail

/-- Whether some prefix of the input matches the regex. -/
def canMatchPre (ci : Bool) (r : RE) : Str → Bool
  | [] => r.nullable
  | c :: t => r.nullable || canMatchPre ci (r.deriv ci c) t

/-- Unanchored search, the semantics of Regexp.MatchString: some substring
(starting at any position) matches. -/
def reSearch (ci : Bool) (r : RE) : Str → Bool
  | [] => canMatchPre ci r []
  | c :: t => canMatchPre ci r (c :: t) || reSearch ci r t

/-- A compiled pattern: the case-insensitivity flag plus the syntax tree. -/
structure CompiledRe where
  ci : Bool
  re : RE
deriving DecidableEq, Repr

/-- Regexp.MatchString. -/
def matchString (re : CompiledRe) (s : Str) : Bool := reSearch re.ci re.re s

/-- Items of a bracket class up to the closing bracket. -/
def parseClsItemsF : Nat → Str → Option (List ClsItem × Str)
  | 0, _ => none
  | _ + 1, [] => none
  | _ + 1, ']' :: t => some ([], t)
  | fuel + 1, '[' :: ':' :: t =>
    let nm := t.takeWhile isAsciiLetter
    match t.dropWhile isAsciiLetter with
    | ':' :: ']' :: t2 =>
      if posixMatch nm ' ' || posixMatch nm 'a' || posixMatch nm 'A' || posixMatch nm '0' then
        (parseClsItemsF fuel t2).map (fun p => (ClsItem.posix nm :: p.1, p.2))
      else none
    | _ => none
  | fuel + 1, '\\' :: e :: t =>
    (parseClsItemsF fuel t).map (fun p => (ClsItem.one e :: p.1, p.2))
  | fuel + 1, c :: '-' :: d :: t =>
    if d = ']' then some ([ClsItem.one c, ClsItem.one '-'], t)
    else (parseClsItemsF fuel t).map (fun p => (ClsItem.range c d :: p.1, p.2))
  | fuel + 1, c :: t =>
    (parseClsItemsF fuel t).map (fun p => (ClsItem.one c :: p.1, p.2))

/-- A bracket class, positioned just after the opening bracket. -/
def parseClsF (fuel : Nat) (s : Str) : Option (RE × Str) :=
  match s with
  | '^' :: t => (parseClsItemsF fuel t).map (fun p => (RE.cls true p.1, p.2))
  | _ => (parseClsItemsF fuel s).map (fun p => (RE.cls false p.1, p.2))

/-- Escaped rune outside a class. -/
def escRune (e : Char) : Option Char :=
  if e = 'n' then some '\n'
  else if e = 't' then some '\t'
  else if e = 'r' then some '\r'
  else if isAsciiLetter e || ('0' ≤ e && e ≤ '9') then none
  else some e

mutual

def parseAltF : Nat → Str → Option (RE × Str)
  | 0, _ => none
  | fuel + 1, s =>
    match parseCatF fuel s with
    | none => none
    | some (r1, s1) =>
      match s1 with
      | '|' :: t =>
        match parseAltF fuel t with
        | none => none
        | some (r2, s2) => some (.alt r1 r2, s2)
      | _ => some (r1, s1)

def parseCatF : Nat → Str → Option (RE × Str)
  | 0, _ => none
  | fuel + 1, s =>
    match s with
    | [] => some (.eps, [])
    | ')' :: _ => some (.eps, s)
    | '|' :: _ => some (.eps, s)
    | _ =>
      match parseRepF fuel s with
      | none => none
      | some (r1, s1) =>
        match parseCatF fuel s1 with
        | none => none
        | some (r2, s2) => some (.cat r1 r2, s2)

def parseRepF : Nat → Str → Option (RE × Str)
  | 0, _ => none
  | fuel + 1, s =>
    match parseAtomF fuel s with
    | none => none
    | some (a, s1) =>
      match s1 with
      | '*' :: t => some (.star a, t)
      | '+' :: t => some (.cat a (.star a), t)
      | '?' :: t => some (.alt a .eps, t)
      | _ => some (a, s1)

def parseAtomF : Nat → Str → Option (RE × Str)
  | 0, _ => none
  | fuel + 1, s =>
    match s with
    | [] => none
    | '(' :: '?' :: ':' :: t =>
      match parseAltF fuel t with
      | some (r, ')' :: t2) => some (r, t2)
      | _ => none
    | '(' :: '?' :: _ => none
    | '(' :: t =>
      match parseAltF fuel t with
      | some (r, ')' :: t2) => some (r, t2)
      | _ => none
    | ')' :: _ => none
    | '|' :: _ => none
    | '*' :: _ => none
    | '+' :: _ => none
    | '?' :: _ => none
    | '^' :: _ => none
    | '$' :: _ => none
    | '[' :: t => parseClsF fuel t
    | '\\' :: t =>
      match t with
      | [] => none
      | e :: t2 =>
        match escRune e with
        | some c => some (.chr c, t2)
        | none => none
    | '.' :: t => some (.dot, t)
    | c :: t => some (.chr c, t)

end

/-- search.go safeCompile: regexp.Compile with a nil result on error.  The
leading i-flag group emitted by the DSL is recognised here; any pattern the
modelled grammar cannot parse in full compiles to none. -/
def safeCompile (pat : Str) : Option CompiledRe :=
  let p := if hasPref (gs "(?i)") pat then (true, pat.drop 4) else (false, pat)
  match parseAltF (p.2.length * 4 + 16) p.2 with
  | some (r, []) => some { ci := p.1, re := r }
  | _ => none

/-- search.go ClauseKind (KindPrefix is modelled by the pref constructor). -/
inductive ClauseKind where
  | unknown
  | term
  | phrase
  | pref
  | regex
  | field
deriving DecidableEq, Repr

/-- search.go Clause. -/
structure Clause where
  negative : Bool := false
  field : Str := []
  value : Str := []
  kind : ClauseKind := .unknown
  regex : Option CompiledRe := none
deriving DecidableEq, Repr

/-- search.go Scope. -/
inductive Scope where
  | content
  | tools
  | all
deriving DecidableEq, Repr

/-- search.go Query. -/
structure Query where
  groups : List (List Clause)
  scope : Scope
deriving DecidableEq, Repr

/-- search.go stripQuotes. -/
def stripQuotes (s : Str) : Str :=
  if s.length ≥ 2 && s.headD ' ' = '"' && s.getLastD ' ' = '"' then
    (s.drop 1).take (s.length - 2)
  else s

/-- strings.LastIndex with a single-rune needle, minus-one convention of Go
replaced by an Option. -/
def lastIndexChar (s : Str) (c : Char) : Option Nat :=
  (firstIndexSub s.reverse [c]).map (fun i => s.length - 1 - i)

/-- regexp.QuoteMeta special-character set. -/
def isRegexSpecial (c : Char) : Bool :=
  c = '\\' || c = '.' || c = '+' || c = '*' || c = '?' || c = '(' || c = ')' ||
  c = '|' || c = '[' || c = ']' || c = Char.ofNat 123 || c = Char.ofNat 125 ||
  c = '^' || c = '$'

/-- regexp.QuoteMeta. -/
def quoteMeta (s : Str) : Str :=
  s.flatMap (fun c => if isRegexSpecial c then ['\\', c] else [c])

/-- search.go normalizePCREtoRE2. -/
def normalizePCREtoRE2 (p : Str) : Str :=
  let p := replaceAll p (gs "\\S") (gs "[^[:space:]]")
  let p := replaceAll p (gs "\\D") (gs "[^0-9]")
  let p := replaceAll p (gs "\\W") (gs "[^A-Za-z0-9_]")
  let p := replaceAll p (gs "\\s") (gs "[[:space:]]")
  let p := replaceAll p (gs "\\d") (gs "[0-9]")
  replaceAll p (gs "\\w") (gs "[A-Za-z0-9_]")

/-- The clause built from one non-OR, non-field token; mirrors the token
dispatch inside the loop of parseToDNF. -/
def clauseOfToken (t : Token) : Clause :=
  let raw := t.raw
  if hasPref (gs "/") raw && raw.length ≥ 2 then
    -- regex literal, possibly carrying flags after the last slash
    let p :=
      match lastIndexChar raw '/' with
      | some n => if n > 0 then ((raw.drop 1).take (n - 1), raw.drop (n + 1)) else (raw, ([] : Str))
      | none => (raw, ([] : Str))
    let pat := replaceAll p.1 (gs "\\\\") (gs "\\")
    let pat := normalizePCREtoRE2 pat
    let pat := if containsSub p.2 (gs "i") then gs "(?i)" ++ pat else pat
    { kind := .regex, regex := safeCompile pat, negative := t.negative }
  else if hasPref (gs "\"") raw && hasSuf (gs "\"") raw && raw.length ≥ 2 then
    { kind := .phrase, value := stripQuotes raw, negative := t.negative }
  else if containsSub raw (gs "*") then
    if countChar raw '*' = 1 && hasSuf (gs "*") raw then
      { kind := .pref, value := trimSuf raw (gs "*"), negative := t.negative }
    else
      let esc := replaceAll (quoteMeta raw) (gs "\\*") (gs ".*")
      { kind := .regex, regex := safeCompile (gs "(?i)" ++ esc), negative := t.negative }
  else
    { kind := .term, value := raw, negative := t.negative }

/-- One step of the group/current-conjunction fold of parseToDNF. -/
def dnfStep (st : List (List Clause) × List Clause) (t : Token) :
    List (List Clause) × List Clause :=
  if t.isOR then
    (if st.2 ≠ [] then st.1 ++ [st.2] else st.1, [])
  else if t.isField then
    if t.field = gs "in" then
      (st.1, st.2 ++ [{ kind := .field, field := gs "in",
                        value := goToLower t.raw, negative := t.negative }])
    else
      (st.1, st.2 ++ [{ kind := .field, field := t.field,
                        value := stripQuotes t.raw, negative := t.negative }])
  else
    (st.1, st.2 ++ [clauseOfToken t])

/-- search.go parseToDNF. -/
def parseToDNF (toks : List Token) : List (List Clause) :=
  let st := toks.foldl dnfStep ([], [])
  let groups := if st.2 ≠ [] then st.1 ++ [st.2] else st.1
  if groups = [] then [[]] else groups

/-- Scope decoding of the in: field value inside Parse. -/
def scopeOfInValue (v : Str) : Scope :=
  let w := goToLower (goTrimSpace v)
  if w = gs "tools" then .tools
  else if w = gs "all" then .all
  else .content

/-- The scope-extraction step of Parse: an in: field token overrides the
scope and is dropped, every other token is kept. -/
def scopeStep (acc : Scope × List Token) (t : Token) : Scope × List Token :=
  if t.isField && t.field = gs "in" then
    (scopeOfInValue (stripQuotes t.raw), acc.2)
  else (acc.1, acc.2 ++ [t])

/-- search.go Parse. -/
def parse (raw scopeStr : Str) : Query :=
  let w := goToLower (goTrimSpace scopeStr)
  let scope0 : Scope :=
    if w = gs "tools" then .tools else if w = gs "all" then .all else .content
  let toks := tokenize raw
  let st := toks.foldl scopeStep (scope0, [])
  { groups := parseToDNF st.2, scope := st.1 }

end Search

namespace Indexer

/-! Embedding of internal/indexer/indexer.go (the current version of the
file: provider-aware ingestion, deletion and title metadata). -/

/-- A decoded JSON value (the result of json.Unmarshal into interface
values).  JSON numbers are modelled as integers; no verified statement
involves fractional numerics. -/
inductive JVal where
  | null
  | bool (b : Bool)
  | num (n : Int)
  | str (s : Str)
  | arr (xs : List JVal)
  | obj (fields : List (Str × JVal))
deriving Repr

/-- A decoded JSON object (Go map with string keys; keys are unique). -/
abbrev JObj := List (Str × JVal)

/-- Map read raw[k]; a missing key reads as the nil interface value. -/
def jget (o : JObj) (k : Str) : JVal :=
  match o.find? (fun p => p.1 = k) with
  | some p => p.2
  | none => .null

/-- indexer.go stringOr.  Numeric formatting is decimal (the %g exponent
form Go uses for large float64 magnitudes is not modelled; no verified
statement formats a number). -/
def stringOr (v : JVal) : Str :=
  match v with
  | .str s => s
  | .num n => (toString n).data
  | _ => []

def isDigitChar (c : Char) : Bool := '0' ≤ c && c ≤ '9'

def digitsToNat (s : Str) : Nat :=
  s.foldl (fun a c => a * 10 + (c.toNat - 48)) 0

/-- indexer.go parseTime over the candidate values, first hit wins.
RFC3339 string forms are not modelled (treated as unparsed; no verified
statement feeds a formatted timestamp); digit-only strings follow
parseUnixMaybe and numbers follow the float64 branch. -/
def parseTime (vs : List JVal) : Option Int :=
  match vs with
  | [] => none
  | v :: rest =>
    match v with
    | .str s =>
      if s ≠ [] && s.all isDigitChar then some (Int.ofNat (digitsToNat s))
      else parseTime rest
    | .num n => if n > 1000000000 then some n else parseTime rest
    | _ => parseTime rest

/-- indexer.go firstNonEmpty. -/
def firstNonEmpty (a b : Str) : Str :=
  if goTrimSpace a ≠ [] then a else b

/-- path/filepath Base (unix rules). -/
def filepathBase (p : Str) : Str :=
  if p = [] then gs "."
  else
    let p1 := trimRightChar p '/'
    let p2 :=
      match Search.lastIndexChar p1 '/' with
      | some i => p1.drop (i + 1)
      | none => p1
    if p2 = [] then gs "/" else p2

/-- indexer.go trimTitle (code-point based truncation to 80 runes). -/
def trimTitle (s : Str) : Str :=
  let s := goTrimSpace (replaceAll s (gs "\n") (gs " "))
  if s.length ≤ 80 then s else s.take 80 ++ gs "…"

/-- indexer.go between. -/
def between (s a b : Str) : Str :=
  match firstIndexSub s a with
  | none => []
  | some i =>
    let rest := s.drop (i + a.length)
    match firstIndexSub rest b with
    | none => []
    | some j => goTrimSpace (rest.take j)

/-- indexer.go findCWDInText. -/
def findCWDInText (s : Str) : Str :=
  if s = [] then [] else between s (gs "<cwd>") (gs "</cwd>")

/-- indexer.go extractCWD. -/
def extractCWD (raw : JObj) : Str :=
  let direct := [gs "cwd", gs "working_dir", gs "current_working_directory"].foldl
    (fun acc k =>
      if acc ≠ [] then acc
      else match jget raw k with
        | .str v => goTrimSpace v
        | _ => []) []
  if direct ≠ [] then direct
  else
    let git :=
      match jget raw (gs "git") with
      | .obj g =>
        [gs "cwd", gs "root"].foldl
          (fun acc k =>
            if acc ≠ [] then acc
            else match jget g k with
              | .str v => goTrimSpace v
              | _ => []) []
      | _ => []
    if git ≠ [] then git
    else
      let env :=
        match jget raw (gs "environment_context") with
        | .str s0 =>
          let s := goTrimSpace s0
          if s = [] then []
          else
            let c1 := between s (gs "<cwd>") (gs "</cwd>")
            if c1 ≠ [] then c1
            else
              match firstIndexSub (goToLower s) (gs "<cwd>") with
              | some i =>
                let rest := s.drop (i + 5)
                match firstIndexSub rest (gs "<") with
                | some j => if j > 0 then goTrimSpace (rest.take j) else []
                | none => []
              | none => []
        | _ => []
      if env ≠ [] then env
      else
        match jget raw (gs "content") with
        | .str c => findCWDInText c
        | .arr elems =>
          elems.foldl
            (fun acc el =>
              if acc ≠ [] then acc
              else
                match el with
                | .str s => findCWDInText s
                | .obj m =>
                  let t := match jget m (gs "type") with | .str t => t | _ => []
                  if t = gs "text" || t = gs "input_text" || t = gs "output_text" then
                    let tx := match jget m (gs "text") with | .str v => v | _ => []
                    let hit := if goTrimSpace tx ≠ [] then findCWDInText tx else []
                    if hit ≠ [] then hit
                    else
                      let cx := match jget m (gs "content") with | .str v => v | _ => []
                      if goTrimSpace cx ≠ [] then findCWDInText cx else []
                  else []
                | _ => []) []
        | _ => []

/-- indexer.go extractContentText. -/
def extractContentText (v : JVal) (includeThinking : Bool) : Str :=
  match v with
  | .str c => if goTrimSpace c ≠ [] then c else []
  | .arr elems =>
    let parts := elems.foldl
      (fun acc el =>
        match el with
        | .str s => if goTrimSpace s ≠ [] then acc ++ [s] else acc
        | .obj m =>
          let t := goToLower (stringOr (jget m (gs "type")))
          if t = gs "text" || t = gs "input_text" || t = gs "output_text" then
            let tx := stringOr (jget m (gs "text"))
            if goTrimSpace tx ≠ [] then acc ++ [tx]
            else
              let cx := stringOr (jget m (gs "content"))
              if goTrimSpace cx ≠ [] then acc ++ [cx] else acc
          else if t = gs "thinking" then
            if includeThinking then
              let th := stringOr (jget m (gs "thinking"))
              if goTrimSpace th ≠ [] then acc ++ [th] else acc
            else acc
          else
            if includeThinking then
              let tx := stringOr (jget m (gs "text"))
              if goTrimSpace tx ≠ [] then acc ++ [tx] else acc
            else acc
        | _ => acc) []
    if parts ≠ [] then List.intercalate (gs "\n\n") parts else []
  | _ => []

/-- indexer.go extractMessageLikeText. -/
def extractMessageLikeText (v : JVal) : Str :=
  match v with
  | .obj m =>
    let txt := extractContentText (jget m (gs "content")) true
    if txt ≠ [] then txt
    else
      let s := goTrimSpace (stringOr (jget m (gs "text")))
      if s ≠ [] then s
      else goTrimSpace (stringOr (jget m (gs "message")))
  | _ => []

/-- indexer.go extractText. -/
def extractText (raw : JObj) : Str :=
  let m1 := extractMessageLikeText (jget raw (gs "message"))
  if m1 ≠ [] then m1
  else
    let m2 := extractMessageLikeText (jget raw (gs "payload"))
    if m2 ≠ [] then m2
    else
      let t := extractContentText (jget raw (gs "content")) false
      if t ≠ [] then t
      else
        let s := goTrimSpace (stringOr (jget raw (gs "text")))
        if s ≠ [] then s
        else goTrimSpace (stringOr (jget raw (gs "message")))

/-- indexer.go extractClaudeSegments: (text, thinking). -/
def extractClaudeSegments (m : JObj) : Str × Str :=
  match jget m (gs "content") with
  | .str s => if goTrimSpace s ≠ [] then (s, []) else ([], [])
  | .arr elems =>
    let acc := elems.foldl
      (fun (acc : List Str × List Str) el =>
        match el with
        | .obj mm =>
          let t := goToLower (match jget mm (gs "type") with | .str t => t | _ => [])
          if t = gs "text" || t = gs "input_text" || t = gs "output_text" then
            let a1 :=
              match jget mm (gs "text") with
              | .str s => if goTrimSpace s ≠ [] then acc.1 ++ [s] else acc.1
              | _ => acc.1
            let a2 :=
              match jget mm (gs "content") with
              | .str s => if goTrimSpace s ≠ [] then a1 ++ [s] else a1
              | _ => a1
            (a2, acc.2)
          else if t = gs "thinking" then
            match jget mm (gs "thinking") with
            | .str s => if goTrimSpace s ≠ [] then (acc.1, acc.2 ++ [s]) else acc
            | _ => acc
          else acc
        | _ => acc) ([], [])
    (List.intercalate (gs "\n\n") acc.1, List.intercalate (gs "\n\n") acc.2)
  | _ => ([], [])

/-- indexer.go shouldSkipEventMessage. -/
def shouldSkipEventMessage (raw : JObj) : Bool :=
  if goToLower (stringOr (jget raw (gs "type"))) ≠ gs "event_msg" then false
  else
    match jget raw (gs "payload") with
    | .obj payload =>
      let t := goToLower (stringOr (jget payload (gs "type")))
      t = gs "user_message" || t = gs "agent_message"
    | _ => false

def isLowerAlpha (c : Char) : Bool := 'a' ≤ c && c ≤ 'z'

def isLowerAlnum (c : Char) : Bool := isLowerAlpha c || isDigitChar c

/-- Consume exactly n digits. -/
def eatDigits : Nat → Str → Option Str
  | 0, s => some s
  | n + 1, c :: t => if isDigitChar c then eatDigits n t else none
  | _ + 1, [] => none

def eatChar (c : Char) : Str → Option Str
  | d :: t => if d = c then some t else none
  | [] => none

/-- Tail groups of the generated-identifier pattern: one or more
dash-separated non-empty lowercase-alphanumeric segments, to end of input
(fuel-driven; every step consumes at least the dash). -/
def genIdTailF : Nat → Str → Bool
  | 0, _ => false
  | fuel + 1, s =>
    match s with
    | '-' :: t =>
      let seg := t.takeWhile isLowerAlnum
      let rest := t.dropWhile isLowerAlnum
      seg ≠ [] && (rest = [] || genIdTailF fuel rest)
    | _ => false

def genIdTail (s : Str) : Bool := genIdTailF (s.length + 1) s

/-- Matcher for autoGeneratedTitleRe, the anchored pattern
lowercase-letters dash 4 digits dash 2 digits dash 2 digits letter t
2 digits dash 2 digits dash 2 digits followed by one or more dash-prefixed
lowercase-alphanumeric groups.  The pattern is deterministic (every
bounded piece is delimited by a rune its class excludes), so this direct
scan decides the same language the compiled regexp accepts. -/
def autoGeneratedTitleMatch (s : Str) : Bool :=
  let letters := s.takeWhile isLowerAlpha
  let r0 := s.dropWhile isLowerAlpha
  if letters = [] then false
  else
    match eatChar '-' r0 with
    | none => false
    | some r1 =>
      match eatDigits 4 r1 with
      | none => false
      | some r2 =>
        match eatChar '-' r2 with
        | none => false
        | some r3 =>
          match eatDigits 2 r3 with
          | none => false
          | some r4 =>
            match eatChar '-' r4 with
            | none => false
            | some r5 =>
              match eatDigits 2 r5 with
              | none => false
              | some r6 =>
                match eatChar 't' r6 with
                | none => false
                | some r7 =>
                  match eatDigits 2 r7 with
                  | none => false
                  | some r8 =>
                    match eatChar '-' r8 with
                    | none => false
                    | some r9 =>
                      match eatDigits 2 r9 with
                      | none => false
                      | some r10 =>
                        match eatChar '-' r10 with
                        | none => false
                        | some r11 =>
                          match eatDigits 2 r11 with
                          | none => false
                          | some r12 => genIdTail r12

/-- indexer.go looksLikeGeneratedIdentifier. -/
def looksLikeGeneratedIdentifier (s : Str) : Bool :=
  if s = [] then false
  else
    let str := goToLower (goTrimSpace s)
    if str = [] then false
    else if autoGeneratedTitleMatch str then true
    else if hasPref (gs "rollout-") str then true
    else false

/-- indexer.go looksLikeEnvironmentContext. -/
def looksLikeEnvironmentContext (s : Str) : Bool :=
  if s = [] then false
  else
    let lower := goToLower s
    if containsSub lower (gs "<environment_context") then true
    else
      let markers := [gs "<cwd>", gs "</cwd>", gs "<approval_pol", gs "<sandbox_mode",
                      gs "<network_access", gs "<shell>"]
      let hits := (markers.filter (fun m => containsSub lower m)).length
      hits ≥ 2

/-- indexer.go Message. -/
structure Message where
  id : Str := []
  sessionId : Str := []
  ts : Option Int := none
  role : Str := []
  content : Str := []
  thinking : Str := []
  model : Str := []
  type : Str := []
  toolName : Str := []
  raw : JObj := []
  source : Str := []
  provider : Str := []
  lineNo : Nat := 0
deriving Repr

/-- indexer.go Session.  FileModAt is stat-derived bookkeeping no verified
statement touches and is omitted. -/
structure Session where
  id : Str := []
  title : Str := []
  firstAt : Option Int := none
  lastAt : Option Int := none
  messageCount : Nat := 0
  textCount : Nat := 0
  cwd : Str := []
  cwdBase : Str := []
  models : List (Str × Nat) := []
  roles : List (Str × Nat) := []
  sources : List Str := []
  provider : Str := []
  project : Str := []
deriving DecidableEq, Repr

/-- indexer.go Stats.  FilesScanned and LastScanMs are wall-clock scan
metrics outside every verified statement and are omitted. -/
structure Stats where
  totalMessages : Nat := 0
  totalSessions : Nat := 0
  badLines : Nat := 0
  byRole : List (Str × Nat) := []
  byModel : List (Str × Nat) := []
  fields : List (Str × Nat) := []
deriving DecidableEq, Repr

/-- The mutable maps of the Indexer struct (codexDir and claudeDir are the
configured provider roots). -/
structure IndexState where
  codexDir : Str := []
  claudeDir : Str := []
  sessions : List (Str × Session) := []
  messages : List (Str × List Message) := []
  positions : List (Str × Nat) := []
  lineNos : List (Str × Nat) := []
  stats : Stats := {}
deriving Repr

/-- Association-list read (Go map indexing yielding an optional value). -/
def alookup {α : Type} (l : List (Str × α)) (k : Str) : Option α :=
  match l.find? (fun p => p.1 = k) with
  | some p => some p.2
  | none => none

/-- Association-list write (Go map assignment). -/
def aset {α : Type} : List (Str × α) → Str → α → List (Str × α)
  | [], k, v => [(k, v)]
  | (k1, v1) :: t, k, v =>
    if k1 = k then (k, v) :: t else (k1, v1) :: aset t k v

/-- Go map read of an int counter (zero value when absent). -/
def agetNat (l : List (Str × Nat)) (k : Str) : Nat := (alookup l k).getD 0

/-- Counter increment m[k]++. -/
def abump (l : List (Str × Nat)) (k : Str) : List (Str × Nat) :=
  aset l k (agetNat l k + 1)

/-- Go map read of a message slice (nil slice when absent). -/
def agetMsgs (l : List (Str × List Message)) (k : Str) : List Message :=
  (alookup l k).getD []

/-- indexer.go normalizeTitleCandidate. -/
def normalizeTitleCandidate (candidate : Str) (sess : Session) : Str :=
  let cand := goTrimSpace candidate
  if cand = [] then []
  else if goToLower (goTrimSpace sess.id) = goToLower cand then []
  else if looksLikeEnvironmentContext cand || looksLikeGeneratedIdentifier cand then []
  else trimTitle cand

/-- indexer.go fallbackTitleFromSession. -/
def fallbackTitleFromSession (s : Session) : Str :=
  let base := goTrimSpace s.cwdBase
  if base ≠ [] then base
  else
    let cwd := goTrimSpace s.cwd
    if cwd ≠ [] then cwd
    else
      let id := goTrimSpace s.id
      if id ≠ [] && !looksLikeGeneratedIdentifier id then id else []

/-- indexer.go chooseRelSource.  filepath.Rel is modelled for the common
shape (path below the root, yielding the suffix); other shapes return the
path unchanged, matching the error fallthrough. -/
def chooseRelSource (path provider codexRoot claudeRoot : Str) : Str :=
  if provider = gs "claude" then
    if goTrimSpace claudeRoot ≠ [] && hasPref (claudeRoot ++ ['/']) path then
      path.drop (claudeRoot.length + 1)
    else path
  else
    if goTrimSpace codexRoot ≠ [] && hasPref (codexRoot ++ ['/']) path then
      path.drop (codexRoot.length + 1)
    else path

/-- One line handed to ingestLine, abstracting json.Unmarshal: a line is
whitespace-only, fails to decode into an object, or decodes to an object.
A literal null line decodes to the nil map, whose reads coincide with the
empty object. -/
inductive RawLine where
  | blank
  | malformed
  | obj (raw : JObj)

/-- The .meta.json sidecar lookup, abstracting the path construction plus
os.ReadFile plus decode inside loadSessionMetadata: for a session id it
yields the custom_title value when the sidecar exists, decodes and carries
the key. -/
def MetaEnv : Type := Str → Option Str

/-- indexer.go splitN-based claude id decomposition: claude colon project
colon sid, at least three parts. -/
def claudeIdParts (sessionID : Str) : Option (Str × Str) :=
  match firstIndexSub sessionID [':'] with
  | none => none
  | some i =>
    let rest := sessionID.drop (i + 1)
    match firstIndexSub rest [':'] with
    | none => none
    | some j => some (rest.take j, rest.drop (j + 1))

/-- indexer.go loadSessionMetadata. -/
def loadSessionMetadata (env : MetaEnv) (st : IndexState)
    (sessionID provider project : Str) : IndexState :=
  if provider = gs "claude" && (claudeIdParts sessionID).isNone then st
  else
    match env sessionID with
    | none => st
    | some customTitle =>
      if goTrimSpace customTitle ≠ [] then
        match alookup st.sessions sessionID with
        | some sess =>
          { st with sessions := aset st.sessions sessionID { sess with title := customTitle } }
        | none => st
      else st

/-- Field mapping at the top of ingestLine (message construction from the
decoded object). -/
def buildBaseMessage (st : IndexState) (provider sessionID path : Str)
    (raw : JObj) : Message :=
  { id := stringOr (jget raw (gs "id"))
    sessionId := sessionID
    role := stringOr (jget raw (gs "role"))
    content := extractText raw
    model := stringOr (jget raw (gs "model"))
    type := stringOr (jget raw (gs "type"))
    toolName := stringOr (jget raw (gs "tool_name"))
    raw := raw
    source := chooseRelSource path provider st.codexDir st.claudeDir
    provider := provider
    ts := parseTime [jget raw (gs "timestamp"), jget raw (gs "ts"), jget raw (gs "created_at")] }

/-- The claude branch of ingestLine that overlays nested message fields. -/
def claudeAdjust (raw : JObj) (msg1 : Message) : Message :=
  match jget raw (gs "message") with
  | .obj mobj =>
    let r := if msg1.role = [] then stringOr (jget mobj (gs "role")) else msg1.role
    let mo := if msg1.model = [] then stringOr (jget mobj (gs "model")) else msg1.model
    let seg := extractClaudeSegments mobj
    let ct := if goTrimSpace seg.1 ≠ [] then seg.1 else msg1.content
    let th := if goTrimSpace seg.2 ≠ [] then seg.2 else msg1.thinking
    { msg1 with role := r, model := mo, content := ct, thinking := th }
  | _ => msg1

/-- The claude branch of ingestLine that lets a summary record replace the
title of the file session unconditionally. -/
def claudeSummary (st : IndexState) (raw : JObj) (sessionID : Str)
    (msgType : Str) : IndexState :=
  if goToLower msgType = gs "summary" then
    let s := stringOr (jget raw (gs "summary"))
    if s ≠ [] then
      match alookup st.sessions sessionID with
      | some sess =>
        { st with sessions := aset st.sessions sessionID ({ sess with title := trimTitle s }) }
      | none => st
    else st
  else st

/-- CWD detection inside ingestLine (first message that reveals it wins). -/
def applyCwd (s0 : Session) (raw : JObj) : Session :=
  if s0.cwd = [] then
    let cwd := extractCWD raw
    if goTrimSpace cwd ≠ [] then
      let base := trimRightChar cwd '/'
      { s0 with cwd := cwd,
                cwdBase := if base ≠ [] then filepathBase base else s0.cwdBase }
    else s0
  else s0

/-- Title derivation inside ingestLine (only when the title is empty). -/
def applyTitle (s1 : Session) (raw : JObj) (content : Str) : Session :=
  if s1.title = [] then
    let t1 := normalizeTitleCandidate (stringOr (jget raw (gs "title"))) s1
    if t1 ≠ [] then { s1 with title := t1 }
    else
      let t2 := normalizeTitleCandidate content s1
      if t2 ≠ [] then { s1 with title := t2 }
      else
        let fb := fallbackTitleFromSession s1
        if fb ≠ [] then { s1 with title := trimTitle fb } else s1
  else s1

/-- Counter, bound and histogram updates of the session record. -/
def applyAggregates (s2 : Session) (msg : Message) (path : Str) : Session :=
  let s3 := { s2 with
    messageCount := s2.messageCount + 1
    textCount := if goTrimSpace msg.content ≠ [] then s2.textCount + 1 else s2.textCount }
  let s4 :=
    match msg.ts with
    | some t =>
      let fa := match s3.firstAt with
        | none => some t
        | some f => if t < f then some t else s3.firstAt
      let la := match s3.lastAt with
        | none => some t
        | some l => if t > l then some t else s3.lastAt
      { s3 with firstAt := fa, lastAt := la }
    | none => s3
  let s5 := if msg.model ≠ [] then { s4 with models := abump s4.models msg.model } else s4
  let s6 := if msg.role ≠ [] then { s5 with roles := abump s5.roles msg.role } else s5
  if path ≠ [] then
    if s6.sources.any (fun v => v = msg.source) then s6
    else { s6 with sources := sortedInsertStr msg.source s6.sources }
  else s6

/-- Global stats updates of ingestLine (total counters are applied by the
caller together with the session map). -/
def statsBump (stats : Stats) (msg : Message) (raw : JObj) : Stats :=
  { stats with
    byModel := if msg.model ≠ [] then abump stats.byModel msg.model else stats.byModel
    byRole := if msg.role ≠ [] then abump stats.byRole msg.role else stats.byRole
    fields := raw.foldl (fun acc kv => if kv.1 ≠ [] then abump acc kv.1 else acc)
      stats.fields }

/-- The locked section of ingestLine: line number, session upsert, title
and aggregate updates, message append, stats, and the metadata load for
newly created sessions. -/
def ingestLocked (env : MetaEnv) (stA : IndexState)
    (provider project sessionID path : Str) (msg0 : Message) (raw : JObj) : IndexState :=
  let newLineNo := agetNat stA.lineNos path + 1
  let stB := { stA with lineNos := aset stA.lineNos path newLineNo }
  let msg3 := { msg0 with lineNo := newLineNo }
  let sID := if msg3.sessionId = ([] : Str) then sessionID else msg3.sessionId
  let msg := { msg3 with sessionId := sID }
  let existing := alookup stB.sessions sID
  let isNew := existing.isNone
  let s0 := existing.getD ({ id := sID, provider := provider, project := project })
  let s7 := applyAggregates (applyTitle (applyCwd s0 raw) raw msg.content) msg path
  let newSessions := aset stB.sessions sID s7
  let msgsA := agetMsgs stB.messages sID ++ [msg]
  let msgsB := if msgsA.length > 5000 then msgsA.drop (msgsA.length - 5000) else msgsA
  let stats1 := statsBump stB.stats msg raw
  let stC := { stB with
    sessions := newSessions
    messages := aset stB.messages sID msgsB
    stats := { stats1 with
      totalMessages := stats1.totalMessages + 1
      totalSessions := newSessions.length } }
  if isNew then loadSessionMetadata env stC sID provider project else stC

/-- indexer.go ingestLine. -/
def ingestLine (env : MetaEnv) (st : IndexState)
    (provider project sessionID path : Str) (line : RawLine) : IndexState :=
  match line with
  | .blank => { st with stats := { st.stats with badLines := st.stats.badLines + 1 } }
  | .malformed => { st with stats := { st.stats with badLines := st.stats.badLines + 1 } }
  | .obj raw =>
    if shouldSkipEventMessage raw then st
    else
      let msg1 := buildBaseMessage st provider sessionID path raw
      -- provider-specific extraction, before the lock is taken
      let pair : Message × IndexState :=
        if provider = gs "claude" then
          let msg2 := claudeAdjust raw msg1
          (msg2, claudeSummary st raw sessionID msg2.type)
        else
          let sid := firstNonEmpty (stringOr (jget raw (gs "session_id"))) []
          (if sid ≠ [] then { msg1 with sessionId := sid } else msg1, st)
      ingestLocked env pair.2 provider project sessionID path pair.1 raw

/-- indexer.go tailFile, restricted to the line forwarding it performs:
only lines with non-blank trimmed text reach ingestLine, and the metadata
sidecar is loaded at the end of the pass (byte-offset and mod-time
bookkeeping are not touched by any verified statement and are omitted). -/
def tailLines (env : MetaEnv) (st : IndexState)
    (provider project sessionID path : Str) (lines : List RawLine) : IndexState :=
  let st1 := lines.foldl
    (fun acc line =>
      match line with
      | .blank => acc
      | l => ingestLine env acc provider project sessionID path l) st
  let st2 :=
    match alookup st1.sessions sessionID with
    | some _ => st1
    | none =>
      let fresh : Session := { id := sessionID, provider := provider, project := project }
      { st1 with sessions := aset st1.sessions sessionID fresh }
  loadSessionMetadata env st2 sessionID provider project

/-- indexer.go Messages: a copy of the per-session slice, most recent
limit entries when a positive limit is smaller than the slice. -/
def messagesOf (st : IndexState) (sessionID : Str) (limit : Int) : List Message :=
  let msgs := agetMsgs st.messages sessionID
  if limit ≤ 0 || limit ≥ msgs.length then msgs
  else msgs.drop (msgs.length - limit.toNat)

/-- Ordering key of Sessions(): LastAt.After with the zero time below
every set timestamp. -/
def lastAtAfter (a b : Option Int) : Bool :=
  match a, b with
  | some x, some y => x > y
  | some _, none => true
  | none, _ => false

def insertByLastAt (x : Session) : List Session → List Session
  | [] => [x]
  | y :: ys => if lastAtAfter x.lastAt y.lastAt then x :: y :: ys else y :: insertByLastAt x ys

/-- indexer.go Sessions: value snapshot sorted by last_at descending
(sort.Slice is unstable; a fixed tie order is chosen here). -/
def sessionsSorted (st : IndexState) : List Session :=
  (st.sessions.map (fun p => p.2)).foldl (fun acc s => insertByLastAt s acc) []

/-- indexer.go UpdateSessionTitle.  The in-memory title is set before the
sidecar path is computed, so a claude id format error still leaves the
title changed; the sidecar write itself is outside every verified
statement.  Returns the error outcome and the resulting state. -/
def updateSessionTitle (st : IndexState) (sessionID newTitle : Str) :
    Except Str Unit × IndexState :=
  match alookup st.sessions sessionID with
  | none => (.error (gs "session not found"), st)
  | some sess =>
    let retitled : Session := { sess with title := trimTitle newTitle }
    let st1 := { st with sessions := aset st.sessions sessionID retitled }
    if sess.provider = gs "claude" && (claudeIdParts sessionID).isNone then
      (.error (gs "invalid claude session ID format"), st1)
    else (.ok (), st1)

/-- filepath.Join of two segments (path cleaning is not modelled; every
path in this development is already clean). -/
def goJoin (a b : Str) : Str := if a = [] then b else a ++ '/' :: b

/-- The filesystem state DeleteMessage touches: the backing session file as
its list of newline-terminated lines, and the .tmp rewrite target. -/
structure FS where
  file : List Str := []
  tmp : Option (List Str) := none
deriving DecidableEq, Repr

/-- Injection point for the fallible filesystem steps of DeleteMessage, in
the order the source performs them. -/
inductive Fault where
  | ok
  | openErr
  | readErr
  | createErr
  | writeErr
  | flushErr
  | renameErr
deriving DecidableEq, Repr

/-- The scanner loop of DeleteMessage: keeps every physical line whose
1-based number differs from the target. -/
def keepAux (target : Nat) (n : Nat) : List Str → List Str
  | [] => []
  | l :: ls =>
    if n + 1 ≠ target then l :: keepAux target (n + 1) ls
    else keepAux target (n + 1) ls

def keepOtherLines (target : Nat) (lines : List Str) : List Str :=
  keepAux target 0 lines

/-- The message lookup loop of DeleteMessage: index of the first message
whose ID equals the argument. -/
def findMsgIdx (mid : Str) : List Message → Option Nat
  | [] => none
  | m :: rest =>
    if m.id = mid then some 0
    else (findMsgIdx mid rest).map (· + 1)

/-- The backing-file path resolution of DeleteMessage (claude: project
subdirectory from the namespaced id; codex: the sessions directory). -/
def deletePath (st : IndexState) (sess : Session) (sessionID : Str) : Option Str :=
  if sess.provider = gs "claude" then
    match claudeIdParts sessionID with
    | some p => some (goJoin (goJoin st.claudeDir p.1) (p.2 ++ gs ".jsonl"))
    | none => none
  else some (goJoin (goJoin st.codexDir (gs "sessions")) (sessionID ++ gs ".jsonl"))

/-- The fault-free tail of DeleteMessage: file rewrite plus in-memory
removal, counter updates and cursor reset. -/
def deleteApply (st : IndexState) (fs : FS) (sessionID : Str) (sess : Session)
    (msgs : List Message) (msgIndex : Nat) (filePath : Str) : IndexState × FS :=
  let targetLineNo := (msgs.getD msgIndex {}).lineNo
  let lines := keepOtherLines targetLineNo fs.file
  let fs1 : FS := { file := lines, tmp := none }
  let newMsgs := msgs.take msgIndex ++ msgs.drop (msgIndex + 1)
  -- Go slice aliasing: append shifted the suffix left in place, so the
  -- TextCount probe msgs at msgIndex reads the next message unless the
  -- deleted one was last
  let probeIdx := if msgIndex + 1 < msgs.length then msgIndex + 1 else msgIndex
  let probe := msgs.getD probeIdx {}
  let sess1 := { sess with
    messageCount := newMsgs.length
    textCount := if probe.content ≠ [] then sess.textCount - 1 else sess.textCount }
  let st1 := { st with
    sessions := aset st.sessions sessionID sess1
    messages := aset st.messages sessionID newMsgs
    positions := aset st.positions filePath 0
    lineNos := aset st.lineNos filePath 0 }
  (st1, fs1)

/-- indexer.go DeleteMessage.  The fault argument injects a failure into
the corresponding filesystem step (none under fault ok); the returned
triple is the error outcome, the in-memory state and the filesystem state.
TextCount is a Go int that the source can drive to minus one; the Nat
model floors at zero, which no verified statement observes. -/
def deleteMessage (st : IndexState) (fs : FS) (fault : Fault)
    (sessionID messageID : Str) : Except Str Unit × IndexState × FS :=
  match alookup st.sessions sessionID with
  | none => (.error (gs "session not found"), st, fs)
  | some sess =>
    if (agetMsgs st.messages sessionID).length = 0 then
      (.error (gs "no messages in session"), st, fs)
    else
      match findMsgIdx messageID (agetMsgs st.messages sessionID) with
      | none => (.error (gs "message not found"), st, fs)
      | some msgIndex =>
        match deletePath st sess sessionID with
        | none => (.error (gs "invalid claude session ID format"), st, fs)
        | some filePath =>
          if fault = .openErr then (.error (gs "failed to open file"), st, fs)
          else if fault = .readErr then (.error (gs "failed to read file"), st, fs)
          else if fault = .createErr then (.error (gs "failed to create temp file"), st, fs)
          else if fault = .writeErr then
            (.error (gs "failed to write temp file"), st, { fs with tmp := none })
          else if fault = .flushErr then
            (.error (gs "failed to flush temp file"), st, { fs with tmp := none })
          else if fault = .renameErr then
            (.error (gs "failed to replace file"), st, { fs with tmp := none })
          else
            (.ok (),
             (deleteApply st fs sessionID sess (agetMsgs st.messages sessionID) msgIndex filePath).1,
             (deleteApply st fs sessionID sess (agetMsgs st.messages sessionID) msgIndex filePath).2)

/-! A small JSON decoder standing in for json.Unmarshal on the embedded
strings (tool arguments and outputs).  Fractional and exponent numeric
forms and surrogate-pair escapes are rejected; no verified statement feeds
them. -/

def jsonWs (c : Char) : Bool := c = ' ' || c = '\t' || c = '\n' || c = '\r'

/-- The opening curly bracket rune. -/
def lbrace : Char := Char.ofNat 123

/-- The closing curly bracket rune. -/
def rbrace : Char := Char.ofNat 125

def hexVal (c : Char) : Option Nat :=
  if isDigitChar c then some (c.toNat - 48)
  else if 'a' ≤ c && c ≤ 'f' then some (c.toNat - 87)
  else if 'A' ≤ c && c ≤ 'F' then some (c.toNat - 55)
  else none

/-- JSON string body after the opening quote: content and remaining input
after the closing quote. -/
def parseJStrF : Nat → Str → Option (Str × Str)
  | 0, _ => none
  | _ + 1, [] => none
  | _ + 1, '"' :: t => some ([], t)
  | fuel + 1, '\\' :: e :: t =>
    let esc : Option (Char × Str) :=
      if e = '"' then some ('"', t)
      else if e = '\\' then some ('\\', t)
      else if e = '/' then some ('/', t)
      else if e = 'n' then some ('\n', t)
      else if e = 't' then some ('\t', t)
      else if e = 'r' then some ('\r', t)
      else if e = 'b' then some (Char.ofNat 8, t)
      else if e = 'f' then some (Char.ofNat 12, t)
      else if e = 'u' then
        match t with
        | a :: b :: c :: d :: t2 =>
          match hexVal a, hexVal b, hexVal c, hexVal d with
          | some x1, some x2, some x3, some x4 =>
            let n := ((x1 * 16 + x2) * 16 + x3) * 16 + x4
            if 0xD800 ≤ n && n ≤ 0xDFFF then none else some (Char.ofNat n, t2)
          | _, _, _, _ => none
        | _ => none
      else none
    match esc with
    | some p => (parseJStrF fuel p.2).map (fun q => (p.1 :: q.1, q.2))
    | none => none
  | fuel + 1, c :: t =>
    (parseJStrF fuel t).map (fun q => (c :: q.1, q.2))

/-- JSON integer (optional minus, digits). -/
def parseJNum (s : Str) : Option (Int × Str) :=
  let core := fun (t : Str) =>
    let ds := t.takeWhile isDigitChar
    let rest := t.dropWhile isDigitChar
    if ds = [] then none
    else
      match rest with
      | '.' :: _ => none
      | 'e' :: _ => none
      | 'E' :: _ => none
      | _ => some (Int.ofNat (digitsToNat ds), rest)
  match s with
  | '-' :: t => (core t).map (fun p => (-p.1, p.2))
  | _ => core s

mutual

def parseJValF : Nat → Str → Option (Indexer.JVal × Str)
  | 0, _ => none
  | fuel + 1, s =>
    let s := s.dropWhile jsonWs
    match s with
    | 'n' :: 'u' :: 'l' :: 'l' :: t => some (.null, t)
    | 't' :: 'r' :: 'u' :: 'e' :: t => some (.bool true, t)
    | 'f' :: 'a' :: 'l' :: 's' :: 'e' :: t => some (.bool false, t)
    | '"' :: t => (parseJStrF (t.length + 1) t).map (fun p => (.str p.1, p.2))
    | '[' :: t =>
      let t2 := t.dropWhile jsonWs
      match t2 with
      | ']' :: t3 => some (.arr [], t3)
      | _ =>
        match parseJElemsF fuel t2 with
        | some (xs, rest) => some (.arr xs, rest)
        | none => none
    | other =>
      match other with
      | c :: t =>
        if c = lbrace then
          let t2 := t.dropWhile jsonWs
          match t2 with
          | c2 :: t3 =>
            if c2 = rbrace then some (.obj [], t3)
            else
              match parseJMembersF fuel t2 with
              | some (fs, rest) => some (.obj fs, rest)
              | none => none
          | [] => none
        else
          match parseJNum other with
          | some p => some (.num p.1, p.2)
          | none => none
      | [] => none

def parseJElemsF : Nat → Str → Option (List Indexer.JVal × Str)
  | 0, _ => none
  | fuel + 1, s =>
    match parseJValF fuel s with
    | none => none
    | some (v, rest) =>
      let rest := rest.dropWhile jsonWs
      match rest with
      | ',' :: t =>
        match parseJElemsF fuel t with
        | some (xs, r2) => some (v :: xs, r2)
        | none => none
      | ']' :: t => some ([v], t)
      | _ => none

def parseJMembersF : Nat → Str → Option (List (Str × Indexer.JVal) × Str)
  | 0, _ => none
  | fuel + 1, s =>
    let s := s.dropWhile jsonWs
    match s with
    | '"' :: t =>
      match parseJStrF (t.length + 1) t with
      | none => none
      | some (k, rest) =>
        let rest := rest.dropWhile jsonWs
        match rest with
        | ':' :: t2 =>
          match parseJValF fuel t2 with
          | none => none
          | some (v, r2) =>
            let r2 := r2.dropWhile jsonWs
            match r2 with
            | ',' :: t3 =>
              match parseJMembersF fuel t3 with
              | some (fs, r3) => some ((k, v) :: fs, r3)
              | none => none
            | c3 :: t3 => if c3 = rbrace then some ([(k, v)], t3) else none
            | [] => none
        | _ => none
    | _ => none

end

/-- json.Unmarshal of a string into a Go map: succeeds on a full JSON
object (or null, which decodes to the nil map whose reads coincide with
the empty object). -/
def goJsonUnmarshalObj (s : Str) : Option Indexer.JObj :=
  match parseJValF (s.length * 4 + 16) s with
  | some (v, rest) =>
    if rest.dropWhile jsonWs = [] then
      match v with
      | .obj fs => some fs
      | .null => some []
      | _ => none
    else none
  | none => none

end Indexer

namespace Search

open Indexer in
/-- search.go extractToolCmd. -/
def extractToolCmd (m : Indexer.Message) : Str :=
  if goToLower m.type ≠ gs "function_call" then []
  else
    match jget m.raw (gs "arguments") with
    | .str v =>
      match goJsonUnmarshalObj v with
      | some obj =>
        match jget obj (gs "command") with
        | .arr cmd =>
          let parts := cmd.foldl
            (fun acc el => match el with | .str s => acc ++ [s] | _ => acc) []
          if parts ≠ [] then List.intercalate (gs " ") parts else v
        | _ => v
      | none => v
    | .obj v =>
      match jget v (gs "command") with
      | .arr cmd =>
        let parts := cmd.foldl
          (fun acc el => match el with | .str s => acc ++ [s] | _ => acc) []
        List.intercalate (gs " ") parts
      | _ => []
    | _ => []

open Indexer in
/-- search.go extractToolOut. -/
def extractToolOut (m : Indexer.Message) (stdout : Bool) : Str :=
  if goToLower m.type ≠ gs "function_call_output" then []
  else
    let out := jget m.raw (gs "output")
    if stdout then
      match out with
      | .str s =>
        match goJsonUnmarshalObj s with
        | some obj =>
          match jget obj (gs "output") with
          | .str v => v
          | _ =>
            match jget obj (gs "stdout") with
            | .str v => v
            | _ => s
        | none => s
      | .obj mm =>
        match jget mm (gs "output") with
        | .str v => v
        | _ =>
          match jget mm (gs "stdout") with
          | .str v => v
          | _ => []
      | _ => []
    else
      match out with
      | .str s =>
        match goJsonUnmarshalObj s with
        | some obj =>
          match jget obj (gs "stderr") with
          | .str v => v
          | _ => []
        | none => []
      | .obj mm =>
        match jget mm (gs "stderr") with
        | .str v => v
        | _ => []
      | _ => []

/-- search.go fieldValueMatches. -/
def fieldValueMatches (field got want : Str) : Bool :=
  let got := goToLower (goTrimSpace got)
  let want := goToLower (goTrimSpace want)
  if want = [] then true
  else if field = gs "cwd" then containsSub got want
  else got = want

/-- The allow list collected by matchesFieldFilters: positive field
clauses across all groups, for one field. -/
def allowFor (q : Query) (f : Str) : List Clause :=
  (q.groups.flatMap (fun g => g)).filter
    (fun c => c.kind = .field && !c.negative && c.field = f)

/-- The deny list collected by matchesFieldFilters: negative field clauses
across all groups, for one field. -/
def denyFor (q : Query) (f : Str) : List Clause :=
  (q.groups.flatMap (fun g => g)).filter
    (fun c => c.kind = .field && c.negative && c.field = f)

/-- The inner fieldMatches helper of matchesFieldFilters. -/
def fieldMatchesB (q : Query) (f got : Str) : Bool :=
  (if allowFor q f ≠ [] then
    (allowFor q f).any (fun c => fieldValueMatches f got c.value)
   else true)
  && (denyFor q f).all (fun c => !fieldValueMatches f got c.value)

/-- search.go matchesFieldFilters. -/
def matchesFieldFilters (q : Query) (m : Indexer.Message) (s : Indexer.Session) : Bool :=
  if q.groups = [] then true
  else
    fieldMatchesB q (gs "role") (goToLower m.role)
    && fieldMatchesB q (gs "type") (goToLower m.type)
    && fieldMatchesB q (gs "model") (goToLower m.model)
    && fieldMatchesB q (gs "cwd") (goToLower s.cwd)
    && fieldMatchesB q (gs "cwd_base") (goToLower s.cwdBase)

/-- Spec-side selector naming the got argument matchesFieldFilters passes
for each of the five filterable fields. -/
def msgFieldGot (m : Indexer.Message) (s : Indexer.Session) (f : Str) : Str :=
  if f = gs "role" then goToLower m.role
  else if f = gs "type" then goToLower m.type
  else if f = gs "model" then goToLower m.model
  else if f = gs "cwd" then goToLower s.cwd
  else goToLower s.cwdBase

/-- The testClause helper of matchesTextGroups. -/
def testClause (c : Clause) (text : Str) : Bool :=
  if c.kind = .field then true
  else
    match c.kind with
    | .regex =>
      match c.regex with
      | none => false
      | some r => matchString r text
    | .phrase => containsSub text (goToLower c.value)
    | .pref =>
      let pr := goToLower (trimSuf c.value (gs "*"))
      if pr = [] then true else containsSub text pr
    | .term =>
      let v := goToLower c.value
      if v = [] then true else containsSub text v
    | _ => false

/-- One clause evaluated over the in-scope target strings: whether it
matched and the field label of the first match. -/
def clauseEval (scope : Scope) (c : Clause)
    (content toolCmd outStd outErr : Str) : Bool × Str :=
  match scope with
  | .content =>
    if testClause c content then (true, gs "content") else (false, [])
  | .tools =>
    if testClause c toolCmd then (true, gs "tool_cmd")
    else if testClause c outStd then (true, gs "stdout")
    else if testClause c outErr then (true, gs "stderr")
    else (false, [])
  | .all =>
    if testClause c content then (true, gs "content")
    else if testClause c toolCmd then (true, gs "tool_cmd")
    else if testClause c outStd then (true, gs "stdout")
    else if testClause c outErr then (true, gs "stderr")
    else (false, [])

/-- One group of matchesTextGroups: all positive clauses must match, no
negative clause may match; field clauses are skipped.  The fold mirrors
the source loop; the early break on failure only skips work whose result
is discarded, so folding over the rest preserves the outcome. -/
def groupEval (scope : Scope) (g : List Clause)
    (content toolCmd outStd outErr : Str) : Bool × Str :=
  g.foldl
    (fun acc c =>
      if !acc.1 then acc
      else if c.kind = .field then acc
      else
        let ev := clauseEval scope c content toolCmd outStd outErr
        let newHit := if acc.2 = ([] : Str) then ev.2 else acc.2
        if c.negative then (if ev.1 then (false, newHit) else (true, acc.2))
        else (if ev.1 then (true, newHit) else (false, newHit)))
    (true, [])

/-- search.go matchesTextGroups. -/
def matchesTextGroups (q : Query) (m : Indexer.Message) : Bool × Str :=
  let content := goToLower m.content
  let toolCmd := goToLower (extractToolCmd m)
  let outStd := goToLower (extractToolOut m true)
  let outErr := goToLower (extractToolOut m false)
  let res := q.groups.foldl
    (fun (acc : Bool × Str) g =>
      if acc.1 then acc
      else
        let ge := groupEval q.scope g content toolCmd outStd outErr
        if ge.1 then (true, ge.2) else acc)
    (false, [])
  if !res.1 then (false, [])
  else if res.2 = ([] : Str) then
    (true, match q.scope with | .tools => gs "tool_cmd" | _ => gs "content")
  else (true, res.2)

/-- search.go Result.  The content preview is kept as the raw bytes the
source slices. -/
structure Result where
  sessionId : Str := []
  messageId : Str := []
  role : Str := []
  type : Str := []
  model : Str := []
  source : Str := []
  lineNo : Nat := 0
  ts : Option Int := none
  field : Str := []
  content : List Nat := []
deriving DecidableEq, Repr

/-- search.go Response (TookMS is wall clock and is omitted). -/
structure Response where
  truncated : Bool := false
  total : Nat := 0
  hits : List Result := []
deriving DecidableEq, Repr

/-- The matched-field text selection of the preview switch in Exec. -/
def fieldTextOf (m : Indexer.Message) (field : Str) : Str :=
  if field = gs "tool_cmd" then extractToolCmd m
  else if field = gs "stdout" then extractToolOut m true
  else if field = gs "stderr" then extractToolOut m false
  else m.content

/-- The preview computation of Exec: TrimSpace, then a 240-byte cap
applied to the UTF-8 bytes (Go len and slicing are byte based). -/
def previewBytes (t : Str) : List Nat :=
  let b := utf8Encode (goTrimSpace t)
  if b.length > 240 then b.take 240 else b

/-- The hit record built for one satisfying message in Exec. -/
def mkResult (m : Indexer.Message) (field : Str) : Result :=
  { sessionId := m.sessionId
    messageId := m.id
    role := m.role
    type := m.type
    model := m.model
    source := m.source
    lineNo := m.lineNo
    ts := m.ts
    field := field
    content := previewBytes (fieldTextOf m field) }

/-- The paging normalization at the top of Exec (MaxReturn at its default
of 200). -/
def normalizePaging (limit offset : Int) : Int × Int :=
  let limit1 := if limit ≤ 0 then 50 else limit
  let offset1 := if offset < 0 then 0 else offset
  let limit2 := if limit1 > 200 then 200 else limit1
  (limit2, offset1)

/-- Hit ordering of Exec: Ts descending, then Source, then LineNo. -/
def resultLess (a b : Result) : Bool :=
  if a.ts ≠ b.ts then Indexer.lastAtAfter a.ts b.ts
  else if a.source ≠ b.source then strLt a.source b.source
  else a.lineNo < b.lineNo

def insertRes (x : Result) : List Result → List Result
  | [] => [x]
  | y :: ys => if resultLess x y then x :: y :: ys else y :: insertRes x ys

/-- sort.Slice over the hits (unstable in Go; a fixed order is chosen). -/
def sortResults (l : List Result) : List Result :=
  l.foldl (fun acc r => insertRes r acc) []

/-- The per-message body of the scan loop of Exec: field filters, then
text groups, then offset counting and hit emission. -/
def execMsgStep (q : Query) (sessions : List Indexer.Session) (offset : Int)
    (acc : Nat × List Result) (m : Indexer.Message) : Nat × List Result :=
  if !matchesFieldFilters q m ((sessions.find? (fun s2 => s2.id = m.sessionId)).getD {}) then
    acc
  else if !(matchesTextGroups q m).1 then acc
  else if ((acc.1 + 1 : Nat) : Int) ≤ offset then (acc.1 + 1, acc.2)
  else (acc.1 + 1, acc.2 ++ [mkResult m (matchesTextGroups q m).2])

/-- The scan loop of Exec with normalized paging.  The soft wall-clock
budget is not modelled: time.Since never exceeds it here, so truncated
stays false and no break fires (within budget the source caps nothing
but the counting offset). -/
def execCore (st : Indexer.IndexState) (q : Query) (offset : Int) : Nat × List Result :=
  let sessions := Indexer.sessionsSorted st
  sessions.foldl
    (fun (acc : Nat × List Result) s =>
      (Indexer.messagesOf st s.id 0).foldl (execMsgStep q sessions offset) acc)
    (0, [])

/-- search.go Exec. -/
def exec (st : Indexer.IndexState) (q : Query) (limit offset : Int) : Response :=
  let p := normalizePaging limit offset
  let core := execCore st q p.2
  { truncated := false, total := core.1, hits := sortResults core.2 }

end Search

/-! Supporting lemmas about the embedded operations. -/

theorem length_dropWhile_le {α : Type} (p : α → Bool) (l : List α) :
    (l.dropWhile p).length ≤ l.length := by
  induction l with
  | nil => simp [List.dropWhile]
  | cons x t ih =>
    simp only [List.dropWhile]
    split
    · exact Nat.le_succ_of_le ih
    · simp

theorem spanUntilChar_snd_le (c : Char) (l : Str) :
    (spanUntilChar c l).2.length ≤ l.length := by
  induction l with
  | nil => simp [spanUntilChar]
  | cons x t ih =>
    simp only [spanUntilChar]
    split
    · simp
    · simpa using Nat.le_succ_of_le ih

theorem tokSeg_rem_lt (neg : Bool) (s : Str) (h : s ≠ []) :
    (Search.tokSeg neg s).2.length < s.length := by
  match s with
  | [] => exact absurd rfl h
  | d :: r1 =>
    simp only [Search.tokSeg]
    split
    · -- phrase
      have h2 := spanUntilChar_snd_le '"' r1
      cases hp : (spanUntilChar '"' r1).2 with
      | nil => simp [hp]
      | cons a t =>
        rw [hp] at h2
        simp only [hp, List.length_cons] at h2 ⊢
        omega
    · split
      · -- regex
        have h2 := spanUntilChar_snd_le '/' r1
        cases hp : (spanUntilChar '/' r1).2 with
        | nil => simp [hp]
        | cons a afterSlash =>
          rw [hp] at h2
          have h3 := length_dropWhile_le Search.isAsciiLetter afterSlash
          simp only [hp, List.length_cons] at h2 ⊢
          omega
      · -- bare token
        have h3 := length_dropWhile_le (fun ch => !Search.isSpace ch) r1
        split
        · simp only [List.length_cons]
          omega
        · split
          · split
            · simp only [List.length_cons]
              omega
            · simp only [List.length_cons]
              omega
          · simp only [List.length_cons]
            omega

namespace Indexer

theorem alookup_aset_self {α : Type} (l : List (Str × α)) (k : Str) (v : α) :
    alookup (aset l k v) k = some v := by
  induction l with
  | nil => simp [aset, alookup, List.find?]
  | cons p t ih =>
    by_cases h : p.1 = k
    · simp [aset, h, alookup, List.find?]
    · match p with
      | (k1, v1) =>
        simp only [aset]
        rw [if_neg (by simpa using h)]
        simpa [alookup, List.find?, h] using ih

theorem alookup_aset_ne {α : Type} (l : List (Str × α)) (k k2 : Str) (v : α)
    (h : k2 ≠ k) : alookup (aset l k v) k2 = alookup l k2 := by
  have h' : ¬(k = k2) := fun he => h he.symm
  induction l with
  | nil => simp [aset, alookup, List.find?, h']
  | cons p t ih =>
    match p with
    | (k1, v1) =>
      by_cases h1 : k1 = k
      · subst h1
        simp only [aset, if_pos rfl]
        simp [alookup, List.find?, h']
      · simp only [aset, if_neg h1]
        by_cases h2 : k1 = k2
        · subst h2
          simp [alookup, List.find?]
        · simpa [alookup, List.find?, h2] using ih

theorem findMsgIdx_lt (mid : Str) :
    ∀ (msgs : List Message) (i : Nat), findMsgIdx mid msgs = some i → i < msgs.length := by
  intro msgs
  induction msgs with
  | nil =>
    intro i h
    exact Option.noConfusion (show (none : Option Nat) = some i from h)
  | cons m rest ih =>
    intro i h
    simp only [findMsgIdx] at h
    split at h
    · simp only [Option.some.injEq] at h
      subst h
      simp
    · rcases Option.map_eq_some'.mp h with ⟨j, hj, hji⟩
      have := ih j hj
      simp only [List.length_cons]
      omega

theorem findMsgIdx_found (mid : Str) :
    ∀ (msgs : List Message) (i : Nat), findMsgIdx mid msgs = some i →
      (msgs.getD i ({} : Message)).id = mid := by
  intro msgs
  induction msgs with
  | nil =>
    intro i h
    exact Option.noConfusion (show (none : Option Nat) = some i from h)
  | cons m rest ih =>
    intro i h
    simp only [findMsgIdx] at h
    split at h
    · simp only [Option.some.injEq] at h
      subst h
      simpa [List.getD] using (by assumption : m.id = mid)
    · rcases Option.map_eq_some'.mp h with ⟨j, hj, hji⟩
      subst hji
      simpa [List.getD] using ih j hj

theorem list_decomp_getD {α : Type} (d : α) :
    ∀ (l : List α) (i : Nat), i < l.length →
      l = l.take i ++ l.getD i d :: l.drop (i + 1) := by
  intro l
  induction l with
  | nil => intro i h; simp at h
  | cons x t ih =>
    intro i h
    cases i with
    | zero => simp [List.getD]
    | succ j =>
      have hj : j < t.length := by simpa using h
      have := ih j hj
      simp only [List.take_succ_cons, List.getD_cons_succ, List.drop_succ_cons]
      exact congrArg (x :: ·) this

theorem keepAux_length (target : Nat) :
    ∀ (ls : List Str) (n : Nat), n < target → target ≤ n + ls.length →
      (keepAux target n ls).length + 1 = ls.length := by
  intro ls
  induction ls with
  | nil => intro n h1 h2; simp at h2; omega
  | cons l t ih =>
    intro n h1 h2
    simp only [keepAux]
    by_cases h : n + 1 = target
    · rw [if_neg (by omega)]
      have hall : ∀ (ls2 : List Str) (n2 : Nat), target ≤ n2 →
          (keepAux target n2 ls2).length = ls2.length := by
        intro ls2
        induction ls2 with
        | nil => intro n2 _; simp [keepAux]
        | cons y ys ih2 =>
          intro n2 hn2
          simp only [keepAux]
          rw [if_pos (by omega)]
          simp [ih2 (n2 + 1) (by omega)]
      simp [hall t (n + 1) (by omega)]
    · rw [if_pos h]
      have := ih (n + 1) (by omega) (by simp at h2; omega)
      simp only [List.length_cons]
      omega

theorem claudeAdjust_type (raw : JObj) (m : Message) :
    (claudeAdjust raw m).type = m.type := by
  rw [claudeAdjust]
  split <;> rfl

theorem applyCwd_title (s : Session) (raw : JObj) :
    (applyCwd s raw).title = s.title := by
  simp only [applyCwd]
  split_ifs <;> rfl

theorem applyTitle_ne (s : Session) (raw : JObj) (c : Str) (h : s.title ≠ []) :
    applyTitle s raw c = s := by
  rw [applyTitle, if_neg h]

theorem applyAggregates_title (s : Session) (m : Message) (p : Str) :
    (applyAggregates s m p).title = s.title := by
  simp only [applyAggregates]
  rcases hts : m.ts with _ | t <;> simp only [hts] <;> split_ifs <;> rfl

theorem claudeSummary_keeps (st : IndexState) (raw : JObj) (sid mtype k : Str)
    (h : k ≠ sid ∨ ¬(goToLower mtype = gs "summary"
      ∧ stringOr (jget raw (gs "summary")) ≠ [])) :
    alookup (claudeSummary st raw sid mtype).sessions k = alookup st.sessions k := by
  simp only [claudeSummary]
  split_ifs with h1 h2
  · rcases h with hk | hcond
    · split
      · exact alookup_aset_ne _ _ _ _ hk
      · rfl
    · exact absurd ⟨h1, h2⟩ hcond
  · rfl
  · rfl

theorem loadSessionMetadata_ne (env : MetaEnv) (st : IndexState)
    (sid provider project k : Str) (h : k ≠ sid) :
    alookup (loadSessionMetadata env st sid provider project).sessions k
      = alookup st.sessions k := by
  simp only [loadSessionMetadata]
  split
  · rfl
  · split
    · rfl
    · split
      · split
        · exact alookup_aset_ne _ _ _ _ h
        · rfl
      · rfl

theorem ingestLocked_title (env : MetaEnv) (stA : IndexState)
    (provider project sessionID path : Str) (msg0 : Message) (raw : JObj)
    (k : Str) (sess : Session)
    (hsess : alookup stA.sessions k = some sess) (ht : sess.title ≠ []) :
    ∃ sess2,
      alookup (ingestLocked env stA provider project sessionID path msg0 raw).sessions k
        = some sess2 ∧ sess2.title = sess.title := by
  simp only [ingestLocked]
  generalize (if msg0.sessionId = ([] : Str) then sessionID else msg0.sessionId) = sID
  by_cases hk : sID = k
  · subst hk
    rw [hsess]
    simp only [Option.isNone_some, Bool.false_eq_true, if_false, Option.getD_some]
    exact ⟨_, alookup_aset_self _ _ _, by
      rw [applyAggregates_title,
        applyTitle_ne _ _ _ (by rw [applyCwd_title]; exact ht), applyCwd_title]⟩
  · have hk' : k ≠ sID := fun he => hk he.symm
    by_cases hnew : (alookup stA.sessions sID).isNone = true
    · rw [if_pos hnew, loadSessionMetadata_ne _ _ _ _ _ _ hk',
        alookup_aset_ne _ _ _ _ hk']
      exact ⟨sess, hsess, rfl⟩
    · rw [if_neg hnew, alookup_aset_ne _ _ _ _ hk']
      exact ⟨sess, hsess, rfl⟩

theorem ingestLine_title_preserved (env : MetaEnv) (st : IndexState)
    (provider project sessionID path : Str) (line : RawLine) (k : Str) (sess : Session)
    (hsess : alookup st.sessions k = some sess) (ht : sess.title ≠ [])
    (hexc : ∀ raw, line = RawLine.obj raw → provider = gs "claude" → k = sessionID →
      ¬(goToLower (stringOr (jget raw (gs "type"))) = gs "summary"
        ∧ stringOr (jget raw (gs "summary")) ≠ [])) :
    ∃ sess2,
      alookup (ingestLine env st provider project sessionID path line).sessions k
        = some sess2 ∧ sess2.title = sess.title := by
  cases line with
  | blank => exact ⟨sess, hsess, rfl⟩
  | malformed => exact ⟨sess, hsess, rfl⟩
  | obj raw =>
    simp only [ingestLine]
    split_ifs with hskip hp
    · exact ⟨sess, hsess, rfl⟩
    · refine ingestLocked_title env _ provider project sessionID path _ raw k sess ?_ ht
      dsimp only
      rw [claudeSummary_keeps]
      · exact hsess
      · by_cases hks : k = sessionID
        · right
          rw [claudeAdjust_type]
          exact hexc raw rfl hp hks
        · exact Or.inl hks
    · exact ingestLocked_title env st provider project sessionID path _ raw k sess hsess ht
    · exact ingestLocked_title env st provider project sessionID path _ raw k sess hsess ht

end Indexer

namespace Search

theorem mem_insertRes (x r : Result) :
    ∀ (l : List Result), r ∈ insertRes x l → r = x ∨ r ∈ l := by
  intro l
  induction l with
  | nil => intro h; simpa [insertRes] using h
  | cons y ys ih =>
    intro h
    simp only [insertRes] at h
    split at h
    · rcases List.mem_cons.mp h with h | h
      · exact Or.inl h
      · exact Or.inr h
    · rcases List.mem_cons.mp h with h | h
      · exact Or.inr (by simp [h])
      · rcases ih h with h2 | h2
        · exact Or.inl h2
        · exact Or.inr (by simp [h2])

theorem mem_sortResults (r : Result) :
    ∀ (l acc : List Result), r ∈ l.foldl (fun acc2 r2 => insertRes r2 acc2) acc →
      r ∈ l ∨ r ∈ acc := by
  intro l
  induction l with
  | nil => intro acc h; exact Or.inr h
  | cons y ys ih =>
    intro acc h
    simp only [List.foldl_cons] at h
    rcases ih (insertRes y acc) h with h2 | h2
    · exact Or.inl (by simp [h2])
    · rcases mem_insertRes y r acc h2 with h3 | h3
      · exact Or.inl (by simp [h3])
      · exact Or.inr h3

theorem foldl_inv {α β : Type} (f : β → α → β) (P : β → Prop)
    (hstep : ∀ b a, P b → P (f b a)) :
    ∀ (l : List α) (b : β), P b → P (l.foldl f b) := by
  intro l
  induction l with
  | nil => intro b h; simpa using h
  | cons x t ih =>
    intro b h
    simp only [List.foldl_cons]
    exact ih (f b x) (hstep b x h)

theorem foldl_inv_mem {α β : Type} (f : β → α → β) (l : List α) (P : β → Prop)
    (hstep : ∀ b a, a ∈ l → P b → P (f b a)) :
    ∀ (b : β), P b → P (l.foldl f b) := by
  induction l with
  | nil => intro b h; simpa using h
  | cons x t ih =>
    intro b h
    simp only [List.foldl_cons]
    exact ih (fun b2 a ha hb => hstep b2 a (List.mem_cons_of_mem x ha) hb)
      (f b x) (hstep b x (List.mem_cons_self x t) h)

theorem utf8Encode_ascii :
    ∀ (u : Str), (∀ c ∈ u, c.toNat < 128) → utf8Encode u = u.map Char.toNat := by
  intro u
  induction u with
  | nil => intro _; rfl
  | cons c t ih =>
    intro h
    have hc : c.toNat < 128 := h c (List.mem_cons_self c t)
    have ht := ih (fun d hd => h d (List.mem_cons_of_mem c hd))
    simp only [utf8Encode, List.flatMap_cons] at ht ⊢
    rw [show utf8Bytes c = [c.toNat] by rw [utf8Bytes, if_pos (by omega)]]
    rw [List.map_cons, ← ht]
    rfl

theorem mem_of_mem_dropWhile {α : Type} (p : α → Bool) (a : α) :
    ∀ (l : List α), a ∈ l.dropWhile p → a ∈ l := by
  intro l
  induction l with
  | nil => intro h; simpa using h
  | cons x t ih =>
    intro h
    simp only [List.dropWhile] at h
    split at h
    · exact List.mem_cons_of_mem x (ih h)
    · exact h

theorem mem_goTrimSpace (c : Char) (s : Str) (h : c ∈ goTrimSpace s) : c ∈ s := by
  rw [goTrimSpace] at h
  rw [List.mem_reverse] at h
  have h2 := mem_of_mem_dropWhile goIsSpaceChar c _ h
  rw [List.mem_reverse] at h2
  exact mem_of_mem_dropWhile goIsSpaceChar c s h2

theorem testClause_regex_none (c : Clause) (h1 : c.kind = .regex)
    (h2 : c.regex = none) : ∀ (text : Str), testClause c text = false := by
  intro text
  rw [testClause, if_neg (by rw [h1]; intro hc; cases hc), h1, h2]

theorem clauseEval_fst_false (scope : Scope) (c : Clause)
    (content toolCmd outStd outErr : Str)
    (h : ∀ (text : Str), testClause c text = false) :
    (clauseEval scope c content toolCmd outStd outErr).1 = false := by
  cases scope <;> simp [clauseEval, h]

theorem groupEval_fold_false (scope : Scope) (content toolCmd outStd outErr : Str) :
    ∀ (g : List Clause) (acc : Bool × Str), acc.1 = false →
      (g.foldl
        (fun acc c =>
          if !acc.1 then acc
          else if c.kind = .field then acc
          else
            let ev := clauseEval scope c content toolCmd outStd outErr
            let newHit := if acc.2 = ([] : Str) then ev.2 else acc.2
            if c.negative then (if ev.1 then (false, newHit) else (true, acc.2))
            else (if ev.1 then (true, newHit) else (false, newHit)))
        acc).1 = false := by
  intro g
  induction g with
  | nil => intro acc h; simpa using h
  | cons x t ih =>
    intro acc h
    simp only [List.foldl_cons]
    rw [show (if !acc.1 then acc
        else if x.kind = .field then acc
        else
          let ev := clauseEval scope x content toolCmd outStd outErr
          let newHit := if acc.2 = ([] : Str) then ev.2 else acc.2
          if x.negative then (if ev.1 then (false, newHit) else (true, acc.2))
          else (if ev.1 then (true, newHit) else (false, newHit))) = acc by
      rw [if_pos]
      rw [h]
      rfl]
    exact ih acc h

theorem groupEval_mem_false (scope : Scope) (g : List Clause) (c : Clause)
    (content toolCmd outStd outErr : Str)
    (hmem : c ∈ g) (hneg : c.negative = false) (hkind : c.kind = .regex)
    (hreg : c.regex = none) :
    (groupEval scope g content toolCmd outStd outErr).1 = false := by
  have htc := testClause_regex_none c hkind hreg
  rw [groupEval]
  generalize hacc : ((true, []) : Bool × Str) = acc
  clear hacc
  revert hmem
  induction g generalizing acc with
  | nil => intro hmem; cases hmem
  | cons x t ih =>
    intro hmem
    rcases List.mem_cons.mp hmem with hcx | hct
    · subst hcx
      simp only [List.foldl_cons]
      by_cases hacc1 : acc.1 = false
      · rw [show (if !acc.1 then acc
            else if c.kind = .field then acc
            else
              let ev := clauseEval scope c content toolCmd outStd outErr
              let newHit := if acc.2 = ([] : Str) then ev.2 else acc.2
              if c.negative then (if ev.1 then (false, newHit) else (true, acc.2))
              else (if ev.1 then (true, newHit) else (false, newHit))) = acc by
          rw [if_pos]
          rw [hacc1]
          rfl]
        exact groupEval_fold_false scope content toolCmd outStd outErr t acc hacc1
      · have hacc1' : acc.1 = true := by
          cases h2 : acc.1
          · exact absurd h2 hacc1
          · rfl
        have hev := clauseEval_fst_false scope c content toolCmd outStd outErr htc
        rw [show (if !acc.1 then acc
            else if c.kind = .field then acc
            else
              let ev := clauseEval scope c content toolCmd outStd outErr
              let newHit := if acc.2 = ([] : Str) then ev.2 else acc.2
              if c.negative then (if ev.1 then (false, newHit) else (true, acc.2))
              else (if ev.1 then (true, newHit) else (false, newHit)))
            = (false, if acc.2 = ([] : Str)
                then (clauseEval scope c content toolCmd outStd outErr).2 else acc.2) by
          rw [if_neg (by rw [hacc1']; simp), if_neg (by rw [hkind]; intro hc; cases hc)]
          simp only [hneg, hev]
          rfl]
        exact groupEval_fold_false scope content toolCmd outStd outErr t _ rfl
    · simp only [List.foldl_cons]
      exact ih _ hct

theorem containsSub_of_mem (c : Char) :
    ∀ (s : Str), c ∈ s → containsSub s [c] = true := by
  intro s
  induction s with
  | nil => intro h; cases h
  | cons x t ih =>
    intro h
    rcases List.mem_cons.mp h with hx | ht
    · subst hx
      rw [containsSub]
      simp [hasPref]
    · rw [containsSub]
      rw [ih ht]
      simp

theorem tokLoopF_nil : ∀ (fuel : Nat), tokLoopF fuel [] = [] := by
  intro fuel
  cases fuel <;> rfl

theorem spanUntilChar_not_found (ch : Char) :
    ∀ (l : Str), (∀ y ∈ l, y ≠ ch) → spanUntilChar ch l = (l, []) := by
  intro l
  induction l with
  | nil => intro _; rfl
  | cons x t ih =>
    intro h
    rw [spanUntilChar, if_neg (h x (List.mem_cons_self x t)),
      ih (fun y hy => h y (List.mem_cons_of_mem x hy))]

theorem takeWhile_mem_prop {α : Type} (p : α → Bool) :
    ∀ (l : List α) (x : α), x ∈ l.takeWhile p → x ∈ l ∧ p x = true := by
  intro l
  induction l with
  | nil => intro x h; simp at h
  | cons y t ih =>
    intro x h
    by_cases hpy : p y = true
    · rw [List.takeWhile_cons_of_pos hpy] at h
      rcases List.mem_cons.mp h with hx | hx
      · exact ⟨hx ▸ List.mem_cons_self y t, hx ▸ hpy⟩
      · exact ⟨List.mem_cons_of_mem y (ih x hx).1, (ih x hx).2⟩
    · rw [List.takeWhile_cons_of_neg (by simpa using hpy)] at h
      simp at h

theorem takeWhile_append_stop {α : Type} (p : α → Bool) :
    ∀ (l tail : List α), (∃ x ∈ l, p x = false) →
      (l ++ tail).takeWhile p = l.takeWhile p
        ∧ (l ++ tail).dropWhile p = l.dropWhile p ++ tail := by
  intro l
  induction l with
  | nil =>
    intro tail h
    rcases h with ⟨x, hx, _⟩
    simp at hx
  | cons y t ih =>
    intro tail h
    by_cases hpy : p y = true
    · have hwit : ∃ x ∈ t, p x = false := by
        rcases h with ⟨x, hx, hpx⟩
        rcases List.mem_cons.mp hx with hxy | hxt
        · rw [hxy] at hpx; rw [hpx] at hpy; exact absurd hpy (by simp)
        · exact ⟨x, hxt, hpx⟩
      have := ih tail hwit
      constructor
      · rw [List.cons_append, List.takeWhile_cons_of_pos hpy,
          List.takeWhile_cons_of_pos hpy, this.1]
      · rw [List.cons_append, List.dropWhile_cons_of_pos hpy,
          List.dropWhile_cons_of_pos hpy, this.2]
    · have hpy' : p y = false := by simpa using hpy
      constructor
      · rw [List.cons_append, List.takeWhile_cons_of_neg (by simp [hpy']),
          List.takeWhile_cons_of_neg (by simp [hpy'])]
      · rw [List.cons_append, List.dropWhile_cons_of_neg (by simp [hpy']),
          List.dropWhile_cons_of_neg (by simp [hpy']), List.cons_append]

theorem ends_with_of_append (x y : Str) (ch : Char) (hy : y ≠ [])
    (h : ∃ z, x ++ y = z ++ [ch]) : ∃ z2, y = z2 ++ [ch] := by
  induction x with
  | nil => simpa using h
  | cons c xs ih =>
    rcases h with ⟨z, hz⟩
    cases z with
    | nil =>
      simp only [List.nil_append, List.cons_append] at hz
      have : xs ++ y = [] := (List.cons_eq_cons.mp hz).2
      rcases List.append_eq_nil.mp this with ⟨_, hy2⟩
      exact absurd hy2 hy
    | cons z0 zs =>
      simp only [List.cons_append] at hz
      exact ih ⟨zs, (List.cons_eq_cons.mp hz).2⟩

theorem firstIndexSub_single_none (c : Char) :
    ∀ (l : Str), c ∉ l → firstIndexSub l [c] = none := by
  intro l
  induction l with
  | nil => intro _; rfl
  | cons y t ih =>
    intro h
    have hne : ¬(c = y) := fun he => h (he ▸ List.mem_cons_self y t)
    rw [firstIndexSub, if_neg (by simp [hasPref, hne]),
      ih (fun hmem => h (List.mem_cons_of_mem y hmem))]
    rfl

theorem containsSub_single_false (c : Char) :
    ∀ (l : Str), c ∉ l → containsSub l [c] = false := by
  intro l
  induction l with
  | nil => intro _; rfl
  | cons y t ih =>
    intro h
    have hne : ¬(c = y) := fun he => h (he ▸ List.mem_cons_self y t)
    rw [containsSub, ih (fun hmem => h (List.mem_cons_of_mem y hmem))]
    simp [hasPref, hne]

theorem isSpace_eq_false_of_letter (c : Char) (h : isAsciiLetter c = true) :
    isSpace c = false := by
  simp only [isSpace, Bool.or_eq_false_iff, decide_eq_false_iff_not]
  refine ⟨⟨⟨?_, ?_⟩, ?_⟩, ?_⟩ <;> intro he <;> rw [he] at h <;> exact absurd h (by decide)

theorem stripQuotes_wrap (b : Str) : stripQuotes ('"' :: (b ++ ['"'])) = b := by
  have hlast2 : ('"' :: (b ++ ['"'])).getLast? = some '"' := by
    rw [show ('"' :: (b ++ ['"'])) = ('"' :: b) ++ ['"'] from rfl, List.getLast?_concat]
  have hn : b.length = ('"' :: (b ++ ['"'])).length - 2 := by
    simp only [List.length_cons, List.length_append, List.length_nil]
    omega
  rw [stripQuotes, if_pos (by simp [List.getLastD_eq_getLast?, hlast2])]
  simp only [List.drop_succ_cons, List.drop_zero]
  exact List.take_left' hn

theorem clauseOfToken_phrase (b : Str) (neg : Bool) :
    clauseOfToken { raw := '"' :: (b ++ ['"']), negative := neg }
      = { kind := .phrase, value := b, negative := neg } := by
  simp only [clauseOfToken]
  rw [show gs "/" = ['/'] from rfl, show gs "\"" = ['"'] from rfl]
  rw [if_neg (by simp [hasPref])]
  rw [if_pos (by simp [hasPref, hasSuf])]
  rw [stripQuotes_wrap]

theorem clauseOfToken_letters (t : Token) (h1 : t.raw ≠ [])
    (h2 : ∀ c ∈ t.raw, isAsciiLetter c = true) :
    clauseOfToken t = { kind := .term, value := t.raw, negative := t.negative } := by
  rcases hre : t.raw with _ | ⟨c, rest⟩
  · exact absurd hre h1
  · have hc : isAsciiLetter c = true := h2 c (by rw [hre]; exact List.mem_cons_self c rest)
    have hslash : ¬('/' = c) := fun he => by rw [← he] at hc; exact absurd hc (by decide)
    have hquot : ¬('"' = c) := fun he => by rw [← he] at hc; exact absurd hc (by decide)
    have hstar : '*' ∉ c :: rest := fun hm => by
      have := h2 '*' (hre ▸ hm); exact absurd this (by decide)
    simp only [clauseOfToken, hre]
    rw [show gs "/" = ['/'] from rfl, show gs "\"" = ['"'] from rfl,
      show gs "*" = ['*'] from rfl]
    rw [if_neg (by simp [hasPref, hslash])]
    rw [if_neg (by simp [hasPref, hquot])]
    rw [if_neg (by simp [containsSub_single_false '*' (c :: rest) hstar])]

theorem dnfStep_plain (st : List (List Clause) × List Clause) (t : Token)
    (hor : t.isOR = false) (hf : t.isField = false) :
    dnfStep st t = (st.1, st.2 ++ [clauseOfToken t]) := by
  rw [dnfStep, if_neg (by simp [hor]), if_neg (by simp [hf])]

theorem foldl_scopeStep_keep :
    ∀ (toks : List Token) (s : Scope) (ts : List Token),
      (∀ t ∈ toks, t.isField = false) →
      toks.foldl scopeStep (s, ts) = (s, ts ++ toks) := by
  intro toks
  induction toks with
  | nil => intro s ts _; simp
  | cons t rest ih =>
    intro s ts h
    simp only [List.foldl_cons]
    rw [show scopeStep (s, ts) t = (s, ts ++ [t]) from by
      rw [scopeStep, if_neg (by simp [h t (List.mem_cons_self t rest)])]]
    rw [ih s (ts ++ [t]) (fun t2 h2 => h t2 (List.mem_cons_of_mem t h2))]
    simp

theorem tokLoopF_quote (b : Str) (hb : '"' ∉ b) :
    ∀ (fuel : Nat) (a : Str),
      (∀ c ∈ a, isAsciiLetter c = true ∨ c = ' ') →
      (a = [] ∨ ∃ a2, a = a2 ++ [' ']) →
      a.length + 1 ≤ fuel →
      ∃ pre,
        tokLoopF fuel (a ++ '"' :: b)
          = pre ++ [{ raw := '"' :: (b ++ ['"']), negative := false }]
        ∧ ∀ t ∈ pre, t.negative = false ∧ t.isField = false
            ∧ ((t.isOR = true ∧ t.raw = [])
               ∨ (t.isOR = false ∧ t.raw ≠ []
                  ∧ ∀ c ∈ t.raw, isAsciiLetter c = true)) := by
  intro fuel
  induction fuel with
  | zero => intro a _ _ hlen; exact absurd hlen (by omega)
  | succ f ih =>
    intro a ha hend hlen
    cases a with
    | nil =>
      refine ⟨[], ?_, by simp⟩
      simp only [List.nil_append, tokLoopF]
      rw [if_neg (by decide), if_neg (by decide)]
      simp only [tokSeg, if_true]
      rw [spanUntilChar_not_found '"' b (fun y hy he => hb (he ▸ hy))]
      simp [tokLoopF_nil]
    | cons c a2 =>
      rcases ha c (List.mem_cons_self c a2) with hcl | hcsp
      · -- a letter opens a bare token
        have hsp : isSpace c = false := isSpace_eq_false_of_letter c hcl
        have hdash : ¬(c = '-') := fun he => by
          rw [he] at hcl; exact absurd hcl (by decide)
        have hquo : ¬(c = '"') := fun he => by
          rw [he] at hcl; exact absurd hcl (by decide)
        have hsla : ¬(c = '/') := fun he => by
          rw [he] at hcl; exact absurd hcl (by decide)
        have hend2 : ∃ z, a2 = z ++ [' '] := by
          rcases hend with hnil | ⟨z, hz⟩
          · exact absurd hnil (by simp)
          · cases z with
            | nil =>
              have hc2 := (List.cons_eq_cons.mp (by simpa using hz)).1
              rw [hc2] at hcl
              exact absurd hcl (by decide)
            | cons z0 zs => exact ⟨zs, (List.cons_eq_cons.mp (by simpa using hz)).2⟩
        obtain ⟨z, hz⟩ := hend2
        have hspmem : ' ' ∈ a2 := by
          rw [hz]; exact List.mem_append_right z (by simp)
        have hstop := takeWhile_append_stop (fun ch => !isSpace ch) a2 ('"' :: b)
          ⟨' ', hspmem, by decide⟩
        simp only [List.cons_append, tokLoopF]
        rw [if_neg (by simp [hsp]), if_neg hdash]
        simp only [tokSeg]
        rw [if_neg hquo, if_neg hsla]
        simp only [List.append_eq]
        rw [hstop.1, hstop.2]
        have hwlet : ∀ x ∈ a2.takeWhile (fun ch => !isSpace ch), isAsciiLetter x = true := by
          intro x hx
          obtain ⟨hmem, hp⟩ := takeWhile_mem_prop _ a2 x hx
          rcases ha x (List.mem_cons_of_mem c hmem) with h | h
          · exact h
          · rw [h] at hp; exact absurd hp (by decide)
        have hdwsub : ∀ d ∈ a2.dropWhile (fun ch => !isSpace ch),
            isAsciiLetter d = true ∨ d = ' ' :=
          fun d hd => ha d (List.mem_cons_of_mem c (mem_of_mem_dropWhile _ d a2 hd))
        have hdwend : a2.dropWhile (fun ch => !isSpace ch) = []
            ∨ ∃ z2, a2.dropWhile (fun ch => !isSpace ch) = z2 ++ [' '] := by
          by_cases hdnil : a2.dropWhile (fun ch => !isSpace ch) = []
          · exact Or.inl hdnil
          · refine Or.inr (ends_with_of_append (a2.takeWhile (fun ch => !isSpace ch)) (a2.dropWhile (fun ch => !isSpace ch)) ' ' hdnil ⟨z, ?_⟩)
            rw [List.takeWhile_append_dropWhile]
            exact hz
        have hdwlen : (a2.dropWhile (fun ch => !isSpace ch)).length + 1 ≤ f := by
          have h1 := length_dropWhile_le (fun ch => !isSpace ch) a2
          simp only [List.length_cons] at hlen
          omega
        obtain ⟨pre2, hpre2, hprops2⟩ := ih (a2.dropWhile (fun ch => !isSpace ch))
          hdwsub hdwend hdwlen
        by_cases hor : (c :: a2.takeWhile (fun ch => !isSpace ch)) = gs "OR"
        · rw [if_pos hor]
          refine ⟨{ isOR := true } :: pre2, ?_, ?_⟩
          · dsimp only
            rw [hpre2]
            rfl
          · intro t ht
            rcases List.mem_cons.mp ht with h | h
            · subst h; exact ⟨rfl, rfl, Or.inl ⟨rfl, rfl⟩⟩
            · exact hprops2 t h
        · rw [if_neg hor]
          have hcol : firstIndexSub (c :: a2.takeWhile (fun ch => !isSpace ch)) [':']
              = none := by
            apply firstIndexSub_single_none
            intro hmem
            rcases List.mem_cons.mp hmem with he | hmem2
            · rw [← he] at hcl; exact absurd hcl (by decide)
            · exact absurd (hwlet ':' hmem2) (by decide)
          rw [hcol]
          refine ⟨{ raw := c :: a2.takeWhile (fun ch => !isSpace ch), negative := false }
              :: pre2, ?_, ?_⟩
          · dsimp only
            rw [hpre2]
            rfl
          · intro t ht
            rcases List.mem_cons.mp ht with h | h
            · subst h
              refine ⟨rfl, rfl, Or.inr ⟨rfl, by simp, ?_⟩⟩
              intro d hd
              rcases List.mem_cons.mp hd with he | hm
              · rw [he]; exact hcl
              · exact hwlet d hm
            · exact hprops2 t h
      · -- a leading space is skipped
        subst hcsp
        simp only [List.cons_append, tokLoopF]
        rw [if_pos (by decide)]
        refine ih a2 (fun d hd => ha d (List.mem_cons_of_mem _ hd)) ?_
          (by simp only [List.length_cons] at hlen; omega)
        rcases hend with hnil | ⟨z, hz⟩
        · exact absurd hnil (by simp)
        · cases z with
          | nil => exact Or.inl (by simpa using hz)
          | cons z0 zs => exact Or.inr ⟨zs, (List.cons_eq_cons.mp (by simpa using hz)).2⟩

theorem spanUntilChar_append (c : Char) :
    ∀ (l tail : Str), (spanUntilChar c l).2 ≠ [] →
      spanUntilChar c (l ++ tail)
        = ((spanUntilChar c l).1, (spanUntilChar c l).2 ++ tail) := by
  intro l
  induction l with
  | nil => intro tail h; exact absurd rfl h
  | cons x xs ih =>
    intro tail h
    by_cases hx : x = c
    · rw [List.cons_append, spanUntilChar, if_pos hx]
      rw [show spanUntilChar c (x :: xs) = ([], x :: xs) from by
        rw [spanUntilChar, if_pos hx]]
      rfl
    · rw [spanUntilChar, if_neg hx] at h
      rw [List.cons_append, spanUntilChar, if_neg hx,
        ih tail (by simpa using h)]
      rw [show spanUntilChar c (x :: xs)
          = (x :: (spanUntilChar c xs).1, (spanUntilChar c xs).2) from by
        rw [spanUntilChar, if_neg hx]]

theorem takeWhile_append_head {α : Type} (p : α → Bool) :
    ∀ (l : List α) (x : α) (tail : List α), p x = false →
      (l ++ x :: tail).takeWhile p = l.takeWhile p
        ∧ (l ++ x :: tail).dropWhile p = l.dropWhile p ++ x :: tail := by
  intro l
  induction l with
  | nil =>
    intro x tail hx
    constructor
    · rw [List.nil_append, List.takeWhile_cons_of_neg (by simp [hx])]
      rfl
    · rw [List.nil_append, List.dropWhile_cons_of_neg (by simp [hx])]
      rfl
  | cons y ys ih =>
    intro x tail hx
    by_cases hy : p y = true
    · constructor
      · rw [List.cons_append, List.takeWhile_cons_of_pos hy,
          List.takeWhile_cons_of_pos hy, (ih x tail hx).1]
      · rw [List.cons_append, List.dropWhile_cons_of_pos hy,
          List.dropWhile_cons_of_pos hy, (ih x tail hx).2]
    · have hy' : p y = false := by simpa using hy
      constructor
      · rw [List.cons_append, List.takeWhile_cons_of_neg (by simp [hy']),
          List.takeWhile_cons_of_neg (by simp [hy'])]
      · rw [List.cons_append, List.dropWhile_cons_of_neg (by simp [hy']),
          List.dropWhile_cons_of_neg (by simp [hy']), List.cons_append]

theorem exists_stop_of_dropWhile_ne_nil {α : Type} (p : α → Bool) :
    ∀ (l : List α), l.dropWhile p ≠ [] → ∃ x ∈ l, p x = false := by
  intro l
  induction l with
  | nil => intro h; exact absurd rfl h
  | cons y ys ih =>
    intro h
    by_cases hy : p y = true
    · rw [List.dropWhile_cons_of_pos hy] at h
      obtain ⟨x, hx, hpx⟩ := ih h
      exact ⟨x, List.mem_cons_of_mem y hx, hpx⟩
    · exact ⟨y, List.mem_cons_self y ys, by simpa using hy⟩

theorem tokSeg_pre (b : Str) (neg : Bool) (r r2 : Str)
    (h : tokStepPre r = some r2) :
    (tokSeg neg (r ++ '"' :: b)).2 = r2 ++ '"' :: b := by
  cases r with
  | nil => exact absurd h (by simp [tokStepPre])
  | cons d r1 =>
    rw [tokStepPre] at h
    by_cases hq : d = '"'
    · rw [if_pos hq] at h
      cases hsp : (spanUntilChar '"' r1).2 with
      | nil => rw [hsp] at h; exact Option.noConfusion h
      | cons q t =>
        rw [hsp] at h
        have ht : t = r2 := Option.some.inj h
        subst ht
        simp only [List.cons_append, tokSeg, List.append_eq]
        rw [if_pos hq,
          spanUntilChar_append '"' r1 ('"' :: b) (by rw [hsp]; simp), hsp]
        rfl
    · rw [if_neg hq] at h
      by_cases hs : d = '/'
      · rw [if_pos hs] at h
        cases hsp : (spanUntilChar '/' r1).2 with
        | nil => rw [hsp] at h; exact Option.noConfusion h
        | cons q t =>
          rw [hsp] at h
          have ht : t.dropWhile isAsciiLetter = r2 := Option.some.inj h
          simp only [List.cons_append, tokSeg, List.append_eq]
          rw [if_neg hq, if_pos hs,
            spanUntilChar_append '/' r1 ('"' :: b) (by rw [hsp]; simp), hsp]
          simp only [List.cons_append]
          rw [(takeWhile_append_head isAsciiLetter t '"' b (by decide)).2, ht]
      · rw [if_neg hs] at h
        by_cases hnil : r1.dropWhile (fun ch => !isSpace ch) = []
        · rw [if_pos hnil] at h; exact Option.noConfusion h
        · rw [if_neg hnil] at h
          have ht : r1.dropWhile (fun ch => !isSpace ch) = r2 := by injection h
          obtain ⟨x, hx, hpx⟩ := exists_stop_of_dropWhile_ne_nil _ r1 hnil
          have hstop := takeWhile_append_stop (fun ch => !isSpace ch) r1 ('"' :: b)
            ⟨x, hx, hpx⟩
          simp only [List.cons_append, tokSeg, List.append_eq]
          rw [if_neg hq, if_neg hs, hstop.2, ht]
          split
          · rfl
          · split
            · split
              · rfl
              · rfl
            · rfl

theorem reachesQuote_mono :
    ∀ (f1 : Nat) (a : Str) (neg : Bool) (f2 : Nat), f1 ≤ f2 →
      reachesQuote f1 a = some neg → reachesQuote f2 a = some neg := by
  intro f1
  induction f1 with
  | zero => intro a neg f2 _ h; exact absurd h (by simp [reachesQuote])
  | succ f ih =>
    intro a neg f2 hle h
    cases f2 with
    | zero => exact absurd hle (by omega)
    | succ g =>
      have hfg : f ≤ g := by omega
      cases a with
      | nil =>
        simp only [reachesQuote] at h ⊢
        exact h
      | cons c rest =>
        simp only [reachesQuote] at h ⊢
        by_cases hsp : isSpace c = true
        · rw [if_pos hsp] at h ⊢
          exact ih rest neg g hfg h
        · rw [if_neg hsp] at h ⊢
          by_cases hd : c = '-'
          · rw [if_pos hd] at h ⊢
            by_cases hnil : rest.dropWhile isSpace = []
            · rw [if_pos hnil] at h ⊢
              exact h
            · rw [if_neg hnil] at h ⊢
              cases hstep : tokStepPre (rest.dropWhile isSpace) with
              | none => rw [hstep] at h; exact Option.noConfusion h
              | some r2 => rw [hstep] at h; exact ih r2 neg g hfg h
          · rw [if_neg hd] at h ⊢
            cases hstep : tokStepPre (c :: rest) with
            | none => rw [hstep] at h; exact Option.noConfusion h
            | some r2 => rw [hstep] at h; exact ih r2 neg g hfg h

theorem tokLoopF_quote_gen (b : Str) (hb : '"' ∉ b) :
    ∀ (fuel : Nat) (a : Str) (neg : Bool),
      reachesQuote fuel a = some neg →
      ∃ pre, tokLoopF fuel (a ++ '"' :: b)
          = pre ++ [{ raw := '"' :: (b ++ ['"']), negative := neg }] := by
  intro fuel
  induction fuel with
  | zero => intro a neg h; exact absurd h (by simp [reachesQuote])
  | succ f ih =>
    intro a neg h
    cases a with
    | nil =>
      simp only [reachesQuote] at h
      have hneg : false = neg := by injection h
      subst hneg
      refine ⟨[], ?_⟩
      simp only [List.nil_append, tokLoopF]
      rw [if_neg (by decide), if_neg (by decide)]
      simp only [tokSeg, if_true]
      rw [spanUntilChar_not_found '"' b (fun y hy he => hb (he ▸ hy))]
      simp [tokLoopF_nil]
    | cons c rest =>
      simp only [reachesQuote] at h
      by_cases hsp : isSpace c = true
      · rw [if_pos hsp] at h
        obtain ⟨pre, hpre⟩ := ih rest neg h
        refine ⟨pre, ?_⟩
        simp only [List.cons_append, tokLoopF, List.append_eq]
        rw [if_pos hsp]
        exact hpre
      · rw [if_neg hsp] at h
        by_cases hd : c = '-'
        · rw [if_pos hd] at h
          by_cases hnil : rest.dropWhile isSpace = []
          · rw [if_pos hnil] at h
            have hneg : true = neg := by injection h
            subst hneg
            refine ⟨[], ?_⟩
            simp only [List.cons_append, tokLoopF, List.append_eq]
            rw [if_neg hsp, if_pos hd]
            have hdw : (rest ++ '"' :: b).dropWhile isSpace = '"' :: b := by
              rw [(takeWhile_append_head isSpace rest '"' b (by decide)).2, hnil]
              rfl
            rw [hdw, if_neg (by simp)]
            simp only [tokSeg, if_true]
            rw [spanUntilChar_not_found '"' b (fun y hy he => hb (he ▸ hy))]
            simp [tokLoopF_nil]
          · rw [if_neg hnil] at h
            cases hstep : tokStepPre (rest.dropWhile isSpace) with
            | none => rw [hstep] at h; exact Option.noConfusion h
            | some r2 =>
              rw [hstep] at h
              obtain ⟨pre2, hpre2⟩ := ih r2 neg h
              simp only [List.cons_append, tokLoopF, List.append_eq]
              rw [if_neg hsp, if_pos hd]
              have hdw : (rest ++ '"' :: b).dropWhile isSpace
                  = rest.dropWhile isSpace ++ '"' :: b :=
                (takeWhile_append_head isSpace rest '"' b (by decide)).2
              rw [hdw, if_neg (by simp [hnil])]
              rw [tokSeg_pre b true (rest.dropWhile isSpace) r2 hstep, hpre2]
              exact ⟨(tokSeg true (rest.dropWhile isSpace ++ '"' :: b)).1 :: pre2, rfl⟩
        · rw [if_neg hd] at h
          cases hstep : tokStepPre (c :: rest) with
          | none => rw [hstep] at h; exact Option.noConfusion h
          | some r2 =>
            rw [hstep] at h
            obtain ⟨pre2, hpre2⟩ := ih r2 neg h
            simp only [List.cons_append, tokLoopF, List.append_eq]
            rw [if_neg hsp, if_neg hd]
            have hseg := tokSeg_pre b false (c :: rest) r2 hstep
            rw [List.cons_append] at hseg
            rw [hseg, hpre2]
            exact ⟨(tokSeg false (c :: (rest ++ '"' :: b))).1 :: pre2, rfl⟩

theorem foldl_scopeStep_snd :
    ∀ (toks : List Token) (sc : Scope) (ts : List Token),
      (toks.foldl scopeStep (sc, ts)).2
        = ts ++ toks.filter (fun t => !(t.isField && t.field = gs "in")) := by
  intro toks
  induction toks with
  | nil => intro sc ts; simp
  | cons t rest ih =>
    intro sc ts
    simp only [List.foldl_cons]
    by_cases hc : (t.isField && decide (t.field = gs "in")) = true
    · rw [show scopeStep (sc, ts) t = (scopeOfInValue (stripQuotes t.raw), ts) from by
        rw [scopeStep, if_pos hc]]
      rw [ih, List.filter_cons_of_neg (by simp [hc])]
    · rw [show scopeStep (sc, ts) t = (sc, ts ++ [t]) from by
        rw [scopeStep, if_neg hc]]
      rw [ih, List.filter_cons_of_pos
        (by rw [show (t.isField && decide (t.field = gs "in")) = false from
          Bool.eq_false_iff.mpr hc]; rfl)]
      simp

end Search

/-! Claim theorems. -/

/-- Claim C1: the spec states that line_no equals the 1-based physical line
number of the message within its file, even when blank, malformed or
skipped event-wrapper lines precede it.  The code increments the per-file
counter only for ingested lines: tailing a file whose first line is blank
and whose second line carries the message assigns line_no 1, not 2, to the
message on physical line 2 — while DeleteMessage later treats line_no as a
physical line number when rewriting the file. -/
theorem c1_lineno_not_physical :
    (Indexer.agetMsgs
      (Indexer.tailLines (fun _ => none) ({ codexDir := gs "/c" } : Indexer.IndexState)
        (gs "codex") [] (gs "s1") (gs "/c/sessions/s1.jsonl")
        [Indexer.RawLine.blank,
         Indexer.RawLine.obj
           [(gs "id", Indexer.JVal.str (gs "m1")),
            (gs "content", Indexer.JVal.str (gs "hi"))]]).messages
      (gs "s1")).map (fun m => m.lineNo) = [1] := by
  rfl

/-- Claim C9: Exec normalizes its paging arguments before scanning: a
non-positive limit becomes 50, a limit above MaxReturn (200) is clamped to
200, a negative offset becomes 0, and the scan runs on the normalized
values. -/
theorem c9_paging_normalized :
    ∀ (st : Indexer.IndexState) (q : Search.Query) (limit offset : Int),
      Search.exec st q limit offset
        = Search.exec st q (Search.normalizePaging limit offset).1
            (Search.normalizePaging limit offset).2
      ∧ (limit ≤ 0 → (Search.normalizePaging limit offset).1 = 50)
      ∧ (limit > 200 → (Search.normalizePaging limit offset).1 = 200)
      ∧ (0 < limit → limit ≤ 200 → (Search.normalizePaging limit offset).1 = limit)
      ∧ (offset < 0 → (Search.normalizePaging limit offset).2 = 0)
      ∧ (0 ≤ offset → (Search.normalizePaging limit offset).2 = offset) := by
  intro st q limit offset
  refine ⟨?_, ?_, ?_, ?_, ?_, ?_⟩
  · have h2 : (Search.normalizePaging (Search.normalizePaging limit offset).1
        (Search.normalizePaging limit offset).2).2 = (Search.normalizePaging limit offset).2 := by
      simp only [Search.normalizePaging]
      split_ifs <;> omega
    simp only [Search.exec]
    rw [h2]
  · intro h
    simp only [Search.normalizePaging]
    split_ifs <;> omega
  · intro h
    simp only [Search.normalizePaging]
    split_ifs <;> omega
  · intro h1 h2
    simp only [Search.normalizePaging]
    split_ifs <;> omega
  · intro h
    simp only [Search.normalizePaging]
    split_ifs <;> omega
  · intro h
    simp only [Search.normalizePaging]
    split_ifs <;> omega

/-- Witness for C9 at concrete paging arguments. -/
theorem c9_paging_normalized_witness :
    (Search.normalizePaging (-5) (-3)).1 = 50 ∧ (Search.normalizePaging (-5) (-3)).2 = 0
    ∧ (Search.normalizePaging 300 7).1 = 200 ∧ (Search.normalizePaging 300 7).2 = 7 := by
  have h := c9_paging_normalized ({} : Indexer.IndexState) ⟨[], .content⟩ (-5) (-3)
  have h2 := c9_paging_normalized ({} : Indexer.IndexState) ⟨[], .content⟩ 300 7
  exact ⟨h.2.1 (by norm_num), h.2.2.2.2.1 (by norm_num),
         h2.2.2.1 (by norm_num), h2.2.2.2.2.2 (by norm_num)⟩

/-- Claim C2 counterexample: in a state holding two messages that share
the id m (nothing deduplicates provider-supplied ids), whose session
counter is out of step with the in-memory list (the 5000-entry cap drops
old messages without lowering message_count), and whose recorded line_no
exceeds the file length (a stale cursor after an external rewrite),
DeleteMessage succeeds, yet a message with id m is still returned by
Messages, message_count drops from 5 to 1, and the backing file keeps both
of its 2 lines. -/
theorem c2_delete_message_counterexample :
    (let st : Indexer.IndexState :=
      { codexDir := gs "/c",
        sessions := [(gs "sx", { id := gs "sx", messageCount := 5 })],
        messages := [(gs "sx",
          [{ id := gs "m", sessionId := gs "sx", content := gs "ca", lineNo := 7 },
           { id := gs "m", sessionId := gs "sx", content := gs "cb", lineNo := 2 }])] }
     let r := Indexer.deleteMessage st ({ file := [gs "l1", gs "l2"] }) .ok (gs "sx") (gs "m")
     r.1 = .ok ()
     ∧ (Indexer.messagesOf r.2.1 (gs "sx") 0).map (fun m => m.id) = [gs "m"]
     ∧ (Indexer.alookup r.2.1.sessions (gs "sx")).map (fun s => s.messageCount) = some 1
     ∧ r.2.2.file.length = 2) := by
  exact ⟨rfl, rfl, rfl, rfl⟩

/-- Claim C2 as amended: when exactly one in-memory message of the session
carries id mid, the session counter agrees with the in-memory list, and
the line number of that message lies within the backing file, a successful
DeleteMessage leaves Messages(sid, 0) without mid, lowers message_count by
exactly one and shortens the file by exactly one line. -/
theorem c2_delete_message_amended :
    ∀ (st : Indexer.IndexState) (fs : Indexer.FS) (sid mid : Str) (sess : Indexer.Session)
      (r : Except Str Unit × Indexer.IndexState × Indexer.FS),
      Indexer.alookup st.sessions sid = some sess →
      sess.messageCount = (Indexer.agetMsgs st.messages sid).length →
      ((Indexer.agetMsgs st.messages sid).filter (fun m => m.id = mid)).length = 1 →
      (∀ m ∈ Indexer.agetMsgs st.messages sid, m.id = mid →
          1 ≤ m.lineNo ∧ m.lineNo ≤ fs.file.length) →
      Indexer.deleteMessage st fs .ok sid mid = r →
      r.1 = .ok () →
      ((∀ m ∈ Indexer.messagesOf r.2.1 sid 0, m.id ≠ mid)
      ∧ (∃ sess2, Indexer.alookup r.2.1.sessions sid = some sess2
            ∧ sess2.messageCount + 1 = sess.messageCount)
      ∧ r.2.2.file.length + 1 = fs.file.length) := by
  intro st fs sid mid sess r hsess hcount hone hline hr hok
  have hne : ¬((Indexer.agetMsgs st.messages sid).length = 0) := by
    intro h0
    rw [List.length_eq_zero] at h0
    rw [h0] at hone
    simp at hone
  cases hfind : Indexer.findMsgIdx mid (Indexer.agetMsgs st.messages sid) with
  | none =>
    rw [Indexer.deleteMessage] at hr
    rw [hsess] at hr
    simp only [if_neg hne, hfind] at hr
    rw [← hr] at hok
    simp at hok
  | some i =>
    cases hpath : Indexer.deletePath st sess sid with
    | none =>
      rw [Indexer.deleteMessage] at hr
      rw [hsess] at hr
      simp only [if_neg hne, hfind, hpath] at hr
      rw [← hr] at hok
      simp at hok
    | some fp =>
      rw [Indexer.deleteMessage] at hr
      rw [hsess] at hr
      simp only [if_neg hne, hfind, hpath] at hr
      simp only [show (Indexer.Fault.ok = Indexer.Fault.openErr) = False by simp,
                 show (Indexer.Fault.ok = Indexer.Fault.readErr) = False by simp,
                 show (Indexer.Fault.ok = Indexer.Fault.createErr) = False by simp,
                 show (Indexer.Fault.ok = Indexer.Fault.writeErr) = False by simp,
                 show (Indexer.Fault.ok = Indexer.Fault.flushErr) = False by simp,
                 show (Indexer.Fault.ok = Indexer.Fault.renameErr) = False by simp,
                 if_false] at hr
      -- facts about the located message
      have hi := Indexer.findMsgIdx_lt mid (Indexer.agetMsgs st.messages sid) i hfind
      have hid := Indexer.findMsgIdx_found mid (Indexer.agetMsgs st.messages sid) i hfind
      have hdecomp := Indexer.list_decomp_getD ({} : Indexer.Message)
        (Indexer.agetMsgs st.messages sid) i hi
      -- the filtered occurrence count pins down every other message
      have hrest : ((Indexer.agetMsgs st.messages sid).take i
            ++ (Indexer.agetMsgs st.messages sid).drop (i + 1)).filter
            (fun m => m.id = mid) = [] := by
        have hsplit : (Indexer.agetMsgs st.messages sid).filter (fun m => m.id = mid)
            = ((Indexer.agetMsgs st.messages sid).take i
                ++ ((Indexer.agetMsgs st.messages sid).getD i ({} : Indexer.Message))
                  :: (Indexer.agetMsgs st.messages sid).drop (i + 1)).filter
                (fun m => m.id = mid) := by
          rw [← hdecomp]
        rw [hsplit] at hone
        rw [List.filter_append, List.filter_cons] at hone
        rw [if_pos (by simpa using hid)] at hone
        simp only [List.length_append, List.length_cons] at hone
        rw [List.filter_append]
        have h1 : ((Indexer.agetMsgs st.messages sid).take i).filter
            (fun m => m.id = mid) = [] := by
          rw [← List.length_eq_zero]
          omega
        have h2 : ((Indexer.agetMsgs st.messages sid).drop (i + 1)).filter
            (fun m => m.id = mid) = [] := by
          rw [← List.length_eq_zero]
          omega
        rw [h1, h2]
        rfl
      rw [← hr]
      simp only [Indexer.deleteApply]
      refine ⟨?_, ?_, ?_⟩
      · -- no message with mid remains
        intro m hm
        simp only [Indexer.messagesOf] at hm
        rw [if_pos (by norm_num)] at hm
        rw [Indexer.agetMsgs, Indexer.alookup_aset_self] at hm
        simp only [Option.getD_some] at hm
        intro hidm
        have hmm := List.filter_eq_nil.mp hrest m hm
        simp only [decide_eq_true_eq] at hmm
        exact hmm hidm
      · -- message_count dropped by exactly one
        refine ⟨_, Indexer.alookup_aset_self _ _ _, ?_⟩
        simp only []
        rw [hcount]
        have hlen1 : ((Indexer.agetMsgs st.messages sid).take i).length = i := by
          rw [List.length_take]
          omega
        rw [List.length_append, hlen1, List.length_drop]
        omega
      · -- one line fewer in the file
        have hmem : (Indexer.agetMsgs st.messages sid).getD i ({} : Indexer.Message)
            ∈ Indexer.agetMsgs st.messages sid := by
          rw [List.getD_eq_getElem _ _ hi]
          exact List.getElem_mem hi
        have hb := hline _ hmem hid
        simp only [Indexer.keepOtherLines]
        have := Indexer.keepAux_length
          ((Indexer.agetMsgs st.messages sid).getD i ({} : Indexer.Message)).lineNo
          fs.file 0 (by omega) (by omega)
        omega

/-- Witness for C2 on a clean two-message session. -/
theorem c2_delete_message_amended_witness :
    (let st : Indexer.IndexState :=
      { codexDir := gs "/c",
        sessions := [(gs "sx", { id := gs "sx", messageCount := 2, textCount := 2 })],
        messages := [(gs "sx",
          [{ id := gs "a", sessionId := gs "sx", content := gs "ca", lineNo := 1 },
           { id := gs "b", sessionId := gs "sx", content := gs "cb", lineNo := 2 }])] }
     let fs : Indexer.FS := { file := [gs "l1", gs "l2"] }
     let r := Indexer.deleteMessage st fs .ok (gs "sx") (gs "a")
     (∀ m ∈ Indexer.messagesOf r.2.1 (gs "sx") 0, m.id ≠ gs "a")
     ∧ (∃ sess2, Indexer.alookup r.2.1.sessions (gs "sx") = some sess2
           ∧ sess2.messageCount + 1 = 2)
     ∧ r.2.2.file.length + 1 = 2) := by
  exact c2_delete_message_amended
    ({ codexDir := gs "/c",
       sessions := [(gs "sx", { id := gs "sx", messageCount := 2, textCount := 2 })],
       messages := [(gs "sx",
         [{ id := gs "a", sessionId := gs "sx", content := gs "ca", lineNo := 1 },
          { id := gs "b", sessionId := gs "sx", content := gs "cb", lineNo := 2 }])] })
    ({ file := [gs "l1", gs "l2"] }) (gs "sx") (gs "a")
    ({ id := gs "sx", messageCount := 2, textCount := 2 }) _ rfl (by decide)
    (by decide)
    (by
      intro m hm hid
      fin_cases hm <;> simp_all)
    rfl rfl

/-- Claim C3: whenever one of the filesystem steps of DeleteMessage fails
(open, read, temp-file create, write, flush, or rename), the call returns
an error, the temporary file does not remain (given no stale temp file
existed beforehand), the backing file is untouched and the in-memory index
state is exactly the input state. -/
theorem c3_delete_failure_preserves_state :
    ∀ (st : Indexer.IndexState) (fs : Indexer.FS) (fault : Indexer.Fault) (sid mid : Str)
      (r : Except Str Unit × Indexer.IndexState × Indexer.FS),
      fault ≠ .ok → fs.tmp = none →
      Indexer.deleteMessage st fs fault sid mid = r →
      (r.1.isOk = false ∧ r.2.1 = st ∧ r.2.2.file = fs.file ∧ r.2.2.tmp = none) := by
  intro st fs fault sid mid r hfault htmp hr
  rw [Indexer.deleteMessage] at hr
  split at hr
  · rw [← hr]
    exact ⟨rfl, rfl, rfl, htmp⟩
  · split at hr
    · rw [← hr]
      exact ⟨rfl, rfl, rfl, htmp⟩
    · split at hr
      · rw [← hr]
        exact ⟨rfl, rfl, rfl, htmp⟩
      · split at hr
        · rw [← hr]
          exact ⟨rfl, rfl, rfl, htmp⟩
        · split at hr
          · rw [← hr]
            exact ⟨rfl, rfl, rfl, htmp⟩
          · split at hr
            · rw [← hr]
              exact ⟨rfl, rfl, rfl, htmp⟩
            · split at hr
              · rw [← hr]
                exact ⟨rfl, rfl, rfl, htmp⟩
              · split at hr
                · rw [← hr]
                  exact ⟨rfl, rfl, rfl, rfl⟩
                · split at hr
                  · rw [← hr]
                    exact ⟨rfl, rfl, rfl, rfl⟩
                  · split at hr
                    · rw [← hr]
                      exact ⟨rfl, rfl, rfl, rfl⟩
                    · -- fault-free branch is unreachable when fault differs from ok
                      exfalso
                      cases fault <;> simp_all

/-- Claim C6: an invalid regex literal does not fail the parse (Parse is
total by construction); it compiles to a clause with a nil compiled
pattern, such a clause matches no string, as a positive clause it makes
its whole AND-group unsatisfiable, and the remaining groups execute
unchanged: the query with a broken regex OR bar matches exactly what bar
alone matches. -/
theorem c6_bad_regex_never_matches :
    (∀ (pat : Str), Search.safeCompile pat = none →
       ∀ (neg : Bool) (text : Str),
         Search.testClause
           ({ kind := .regex, regex := Search.safeCompile pat, negative := neg }) text = false)
    ∧ (∀ (scope : Search.Scope) (g : List Search.Clause) (c : Search.Clause)
         (content toolCmd outStd outErr : Str),
         c ∈ g → c.negative = false → c.kind = .regex → c.regex = none →
         (Search.groupEval scope g content toolCmd outStd outErr).1 = false)
    ∧ (∀ (m : Indexer.Message),
         (Search.matchesTextGroups (Search.parse (gs "/(/ OR bar") (gs "")) m).1
           = (Search.matchesTextGroups (Search.parse (gs "bar") (gs "")) m).1)
    ∧ Search.safeCompile (gs "(") = none := by
  refine ⟨?_, ?_, ?_, rfl⟩
  · intro pat hp neg text
    rw [hp]
    exact Search.testClause_regex_none _ rfl rfl text
  · intro scope g c content toolCmd outStd outErr hmem hneg hkind hreg
    exact Search.groupEval_mem_false scope g c content toolCmd outStd outErr hmem hneg hkind hreg
  · intro m
    have hq1 : Search.parse (gs "/(/ OR bar") (gs "")
        = { groups := [[{ kind := .regex, regex := none, negative := false }],
                       [{ kind := .term, value := gs "bar", negative := false }]],
            scope := .content } := by rfl
    have hq2 : Search.parse (gs "bar") (gs "")
        = { groups := [[{ kind := .term, value := gs "bar", negative := false }]],
            scope := .content } := by rfl
    rw [hq1, hq2]
    simp only [Search.matchesTextGroups, List.foldl_cons, List.foldl_nil]
    rw [Search.groupEval_mem_false .content
      [{ kind := .regex, regex := none, negative := false }]
      ({ kind := .regex, regex := none, negative := false })
      (goToLower m.content) (goToLower (Search.extractToolCmd m))
      (goToLower (Search.extractToolOut m true)) (goToLower (Search.extractToolOut m false))
      (by simp) rfl rfl rfl]
    simp

/-- Witness for C6: the unmatched-parenthesis pattern compiles to none, so
its clause rejects a sample text and poisons its group. -/
theorem c6_bad_regex_never_matches_witness :
    Search.testClause
      ({ kind := .regex, regex := Search.safeCompile (gs "("), negative := false })
      (gs "anything") = false
    ∧ (Search.groupEval .content
        [{ kind := .regex, regex := none, negative := false },
         { kind := .term, value := gs "x", negative := false }]
        (gs "x") (gs "") (gs "") (gs "")).1 = false := by
  exact ⟨c6_bad_regex_never_matches.1 (gs "(") rfl false (gs "anything"),
         c6_bad_regex_never_matches.2.1 .content
           [{ kind := .regex, regex := none, negative := false },
            { kind := .term, value := gs "x", negative := false }]
           ({ kind := .regex, regex := none, negative := false })
           (gs "x") (gs "") (gs "") (gs "") (by simp) rfl rfl rfl⟩

/-- Claim C7: a bare token whose single asterisk is trailing compiles to a
prefix-kind clause whose value is the token without the asterisk, any
other asterisk placement compiles to a case-insensitive regex clause, and
on the spec examples the query go star matches content go build and the
query g star d matches content good. -/
theorem c7_wildcard_semantics :
    (∀ (t : Search.Token),
       countChar t.raw '*' = 1 →
       hasSuf (gs "*") t.raw = true →
       (hasPref (gs "/") t.raw && decide (t.raw.length ≥ 2)) = false →
       (hasPref (gs "\"") t.raw && hasSuf (gs "\"") t.raw && decide (t.raw.length ≥ 2)) = false →
       Search.clauseOfToken t
         = { kind := .pref, value := trimSuf t.raw (gs "*"), negative := t.negative })
    ∧ (∀ (t : Search.Token),
       containsSub t.raw (gs "*") = true →
       ¬(countChar t.raw '*' = 1 ∧ hasSuf (gs "*") t.raw = true) →
       (hasPref (gs "/") t.raw && decide (t.raw.length ≥ 2)) = false →
       (hasPref (gs "\"") t.raw && hasSuf (gs "\"") t.raw && decide (t.raw.length ≥ 2)) = false →
       (Search.clauseOfToken t).kind = .regex)
    ∧ (Search.matchesTextGroups (Search.parse (gs "go*") (gs ""))
        ({ content := gs "go build" } : Indexer.Message)).1 = true
    ∧ (Search.matchesTextGroups (Search.parse (gs "g*d") (gs ""))
        ({ content := gs "good" } : Indexer.Message)).1 = true := by
  refine ⟨?_, ?_, by decide, by decide⟩
  · intro t h1 h2 h3 h4
    have hstar : '*' ∈ t.raw := by
      have : (t.raw.filter (fun c => c = '*')).length = 1 := h1
      have hne : t.raw.filter (fun c => c = '*') ≠ [] := by
        intro h0
        rw [h0] at this
        simp at this
      rcases List.exists_mem_of_ne_nil _ hne with ⟨x, hx⟩
      have := List.of_mem_filter hx
      simp only [decide_eq_true_eq] at this
      rw [← this]
      exact List.mem_of_mem_filter hx
    rw [Search.clauseOfToken]
    rw [if_neg (by rw [h3]; intro hc; cases hc)]
    rw [if_neg (by rw [h4]; intro hc; cases hc)]
    rw [if_pos (show containsSub t.raw (gs "*") = true from
      Search.containsSub_of_mem '*' t.raw hstar)]
    rw [if_pos (by rw [h2]; simp [h1])]
  · intro t h0 h12 h3 h4
    rw [Search.clauseOfToken]
    rw [if_neg (by rw [h3]; intro hc; cases hc)]
    rw [if_neg (by rw [h4]; intro hc; cases hc)]
    rw [if_pos h0]
    rw [if_neg (by
      intro hc
      simp only [Bool.and_eq_true, decide_eq_true_eq] at hc
      exact h12 ⟨hc.1, hc.2⟩)]

/-- Claim C5 counterexample: the claim demands that every positive field
clause be satisfied, but the code ORs together positive clauses of the
same field, so the query with both role user and role assistant clauses
matches a role user message although its role assistant clause is not
satisfied. -/
theorem c5_field_filters_counterexample :
    (let q := Search.parse (gs "role:user role:assistant") (gs "")
     let m : Indexer.Message := { role := gs "user" }
     let s : Indexer.Session := {}
     (Search.matchesFieldFilters q m s = true ∧ (Search.matchesTextGroups q m).1 = true)
     ∧ ∃ g ∈ q.groups, ∃ c ∈ g, c.kind = .field ∧ c.negative = false
         ∧ Search.fieldValueMatches c.field (Search.msgFieldGot m s c.field) c.value = false) := by
  decide

/-- Claim C5 as amended: field filters are one global conjunction across
all OR-groups, with positive clauses on the same field combined
disjunctively: a candidate matches the field filters exactly when, for
each of the five fields, some positive clause for that field is satisfied
whenever any exists, and no negative clause for it matches — independent
of which text OR-branch matches, so role user foo OR bar never matches a
role assistant message. -/
theorem c5_field_filters_amended :
    (∀ (q : Search.Query) (m : Indexer.Message) (s : Indexer.Session),
       q.groups ≠ [] →
       (Search.matchesFieldFilters q m s = true ↔
         ∀ f ∈ [gs "role", gs "type", gs "model", gs "cwd", gs "cwd_base"],
           Search.fieldMatchesB q f (Search.msgFieldGot m s f) = true))
    ∧ (∀ (q : Search.Query) (f got : Str),
       Search.fieldMatchesB q f got = true ↔
         ((Search.allowFor q f ≠ [] →
            ∃ c ∈ Search.allowFor q f, Search.fieldValueMatches f got c.value = true)
          ∧ ∀ c ∈ Search.denyFor q f, Search.fieldValueMatches f got c.value = false))
    ∧ (∀ (m : Indexer.Message) (s : Indexer.Session),
       goToLower m.role = gs "assistant" →
       Search.matchesFieldFilters (Search.parse (gs "role:user foo OR bar") (gs "")) m s
         = false) := by
  refine ⟨?_, ?_, ?_⟩
  · intro q m s hne
    rw [Search.matchesFieldFilters, if_neg hne]
    have e1 : Search.msgFieldGot m s (gs "role") = goToLower m.role := rfl
    have e2 : Search.msgFieldGot m s (gs "type") = goToLower m.type := rfl
    have e3 : Search.msgFieldGot m s (gs "model") = goToLower m.model := rfl
    have e4 : Search.msgFieldGot m s (gs "cwd") = goToLower s.cwd := rfl
    have e5 : Search.msgFieldGot m s (gs "cwd_base") = goToLower s.cwdBase := rfl
    simp only [List.mem_cons, List.not_mem_nil, or_false, forall_eq_or_imp, forall_eq,
      e1, e2, e3, e4, e5, Bool.and_eq_true]
    tauto
  · intro q f got
    rw [Search.fieldMatchesB]
    by_cases hal : Search.allowFor q f = []
    · simp [hal, List.all_eq_true, Bool.not_eq_true']
    · simp [hal, List.any_eq_true, List.all_eq_true, Bool.not_eq_true']
  · intro m s hrole
    have hq : Search.parse (gs "role:user foo OR bar") (gs "")
        = { groups :=
              [[{ kind := .field, field := gs "role", value := gs "user", negative := false },
                { kind := .term, value := gs "foo", negative := false }],
               [{ kind := .term, value := gs "bar", negative := false }]],
            scope := .content } := by rfl
    rw [hq, Search.matchesFieldFilters, if_neg (by simp)]
    rw [hrole]
    rw [show Search.fieldMatchesB
        { groups :=
            [[{ kind := .field, field := gs "role", value := gs "user", negative := false },
              { kind := .term, value := gs "foo", negative := false }],
             [{ kind := .term, value := gs "bar", negative := false }]],
          scope := .content } (gs "role") (gs "assistant") = false from rfl]
    rfl

/-- Witness for C5 on a concrete query, message and session. -/
theorem c5_field_filters_amended_witness :
    (Search.matchesFieldFilters (Search.parse (gs "role:user") (gs ""))
        ({ role := gs "user" } : Indexer.Message) ({} : Indexer.Session) = true ↔
      ∀ f ∈ [gs "role", gs "type", gs "model", gs "cwd", gs "cwd_base"],
        Search.fieldMatchesB (Search.parse (gs "role:user") (gs "")) f
          (Search.msgFieldGot ({ role := gs "user" } : Indexer.Message)
            ({} : Indexer.Session) f) = true)
    ∧ Search.matchesFieldFilters (Search.parse (gs "role:user foo OR bar") (gs ""))
        ({ role := gs "Assistant" } : Indexer.Message) ({} : Indexer.Session) = false := by
  exact ⟨c5_field_filters_amended.1 (Search.parse (gs "role:user") (gs ""))
           ({ role := gs "user" }) ({}) (by decide),
         c5_field_filters_amended.2.2 ({ role := gs "Assistant" }) ({}) (by decide)⟩
theorem c7_wildcard_semantics_witness :
    Search.clauseOfToken ({ raw := gs "go*" } : Search.Token)
      = { kind := .pref, value := gs "go", negative := false }
    ∧ (Search.clauseOfToken ({ raw := gs "g*d" } : Search.Token)).kind = .regex := by
  constructor
  · have h := c7_wildcard_semantics.1 ({ raw := gs "go*" } : Search.Token)
      (by decide) (by decide) (by decide) (by decide)
    rw [h]
    rfl
  · exact c7_wildcard_semantics.2.1 ({ raw := gs "g*d" } : Search.Token)
      (by decide) (by decide) (by decide) (by decide)

set_option maxRecDepth 8000 in
/-- Claim C8 counterexample: Go slices the preview at 240 bytes, not 240
characters.  A message whose content is 100 three-byte runes is 100
characters long — at most 240 characters, so the claim requires the full
trimmed text — yet the emitted hit carries only the first 240 bytes, i.e.
80 of the 100 runes. -/
theorem c8_preview_counterexample :
    (let st : Indexer.IndexState :=
      { sessions := [(gs "s1", { id := gs "s1" })],
        messages := [(gs "s1",
          [{ id := gs "e", sessionId := gs "s1", content := List.replicate 100 '€' }])] }
     let r := Search.exec st (Search.parse (gs "") (gs "")) 10 0
     r.hits.map (fun h => h.content) = [(utf8Encode (List.replicate 100 '€')).take 240]
     ∧ (utf8Encode (List.replicate 100 '€')).take 240
         ≠ utf8Encode (goTrimSpace (List.replicate 100 '€'))
     ∧ (goTrimSpace (List.replicate 100 '€')).length ≤ 240) := by
  refine ⟨?_, by decide, by decide⟩
  decide

/-- Claim C8 as amended: every emitted hit's content is the first 240
BYTES of the UTF-8 encoding of the trimmed matched-field text (the whole
encoding when it is at most 240 bytes); for pure-ASCII text this
coincides with the first 240 characters of the trimmed text. -/
theorem c8_preview_amended :
    (∀ (st : Indexer.IndexState) (q : Search.Query) (limit offset : Int)
       (hit : Search.Result),
       hit ∈ (Search.exec st q limit offset).hits →
       ∃ sid m f, m ∈ Indexer.agetMsgs st.messages sid
         ∧ hit = Search.mkResult m f
         ∧ hit.content =
             (let b := utf8Encode (goTrimSpace (Search.fieldTextOf m f))
              if b.length > 240 then b.take 240 else b))
    ∧ (∀ (t : Str), (∀ c ∈ t, c.toNat < 128) →
        Search.previewBytes t
          = utf8Encode (if (goTrimSpace t).length ≤ 240 then goTrimSpace t
                        else (goTrimSpace t).take 240)) := by
  constructor
  · intro st q limit offset hit hmem
    simp only [Search.exec, Search.sortResults] at hmem
    have hcore : hit ∈ (Search.execCore st q (Search.normalizePaging limit offset).2).2 := by
      rcases Search.mem_sortResults hit _ [] hmem with h | h
      · exact h
      · cases h
    revert hcore
    suffices hP : ∀ h2 ∈ (Search.execCore st q (Search.normalizePaging limit offset).2).2,
        ∃ sid m f, m ∈ Indexer.agetMsgs st.messages sid
          ∧ h2 = Search.mkResult m f
          ∧ h2.content =
              (let b := utf8Encode (goTrimSpace (Search.fieldTextOf m f))
               if b.length > 240 then b.take 240 else b) from
      fun hcore => hP hit hcore
    rw [Search.execCore]
    exact Search.foldl_inv _
      (fun acc => ∀ h2 ∈ acc.2, ∃ sid m f, m ∈ Indexer.agetMsgs st.messages sid
        ∧ h2 = Search.mkResult m f
        ∧ h2.content =
            (let b := utf8Encode (goTrimSpace (Search.fieldTextOf m f))
             if b.length > 240 then b.take 240 else b))
      (fun b s hPb =>
        Search.foldl_inv_mem
          (Search.execMsgStep q (Indexer.sessionsSorted st)
            (Search.normalizePaging limit offset).2)
          (Indexer.messagesOf st s.id 0)
          (fun acc => ∀ h2 ∈ acc.2, ∃ sid m f, m ∈ Indexer.agetMsgs st.messages sid
            ∧ h2 = Search.mkResult m f
            ∧ h2.content =
                (let b := utf8Encode (goTrimSpace (Search.fieldTextOf m f))
                 if b.length > 240 then b.take 240 else b))
          (by
            intro b2 m hm hPb2
            intro h2 hh2
            rw [Search.execMsgStep] at hh2
            split at hh2
            · exact hPb2 h2 hh2
            · split at hh2
              · exact hPb2 h2 hh2
              · split at hh2
                · exact hPb2 h2 hh2
                · rcases List.mem_append.mp hh2 with hin | hin
                  · exact hPb2 h2 hin
                  · rcases List.mem_singleton.mp hin with rfl
                    refine ⟨s.id, m, (Search.matchesTextGroups q m).2, ?_, rfl, rfl⟩
                    have h0 : Indexer.messagesOf st s.id 0
                        = Indexer.agetMsgs st.messages s.id := rfl
                    rw [← h0]
                    exact hm)
          b hPb)
      (Indexer.sessionsSorted st) (0, [])
      (by intro h2 hh2; cases hh2)
  · intro t ht
    have htrim : ∀ c ∈ goTrimSpace t, c.toNat < 128 :=
      fun c hc => ht c (Search.mem_goTrimSpace c t hc)
    rw [Search.previewBytes]
    rw [Search.utf8Encode_ascii (goTrimSpace t) htrim]
    by_cases hlen : (goTrimSpace t).length ≤ 240
    · rw [if_neg (by rw [List.length_map]; omega), if_pos hlen]
      rw [Search.utf8Encode_ascii (goTrimSpace t) htrim]
    · rw [if_pos (by rw [List.length_map]; omega), if_neg hlen]
      rw [Search.utf8Encode_ascii _
        (fun c hc => htrim c (List.mem_of_mem_take hc))]
      rw [List.map_take]

/-- Witness for C8: the single hit of a one-message index carries the
byte preview of its content, and an ASCII string previews to its first
240 characters. -/
theorem c8_preview_amended_witness :
    (∃ sid m f,
      m ∈ Indexer.agetMsgs
        ({ sessions := [(gs "s1", { id := gs "s1" })],
           messages := [(gs "s1",
             [{ id := gs "a", sessionId := gs "s1", content := gs " hello " }])] }
          : Indexer.IndexState).messages sid
      ∧ (Search.exec
          ({ sessions := [(gs "s1", { id := gs "s1" })],
             messages := [(gs "s1",
               [{ id := gs "a", sessionId := gs "s1", content := gs " hello " }])] }
            : Indexer.IndexState)
          (Search.parse (gs "") (gs "")) 10 0).hits.getD 0 ({} : Search.Result)
          = Search.mkResult m f
      ∧ ((Search.exec
          ({ sessions := [(gs "s1", { id := gs "s1" })],
             messages := [(gs "s1",
               [{ id := gs "a", sessionId := gs "s1", content := gs " hello " }])] }
            : Indexer.IndexState)
          (Search.parse (gs "") (gs "")) 10 0).hits.getD 0 ({} : Search.Result)).content =
          (let b := utf8Encode (goTrimSpace (Search.fieldTextOf m f))
           if b.length > 240 then b.take 240 else b))
    ∧ Search.previewBytes (gs " hi ")
        = utf8Encode (if (goTrimSpace (gs " hi ")).length ≤ 240 then goTrimSpace (gs " hi ")
                      else (goTrimSpace (gs " hi ")).take 240) := by
  exact ⟨c8_preview_amended.1 _ (Search.parse (gs "") (gs "")) 10 0 _ (by decide),
         c8_preview_amended.2 (gs " hi ") (by decide)⟩

/-- Witness for C3: a rename failure on a session that would otherwise
delete successfully. -/
theorem c3_delete_failure_preserves_state_witness :
    (let st : Indexer.IndexState :=
      { codexDir := gs "/c",
        sessions := [(gs "sx", { id := gs "sx", messageCount := 1, textCount := 1 })],
        messages := [(gs "sx",
          [{ id := gs "a", sessionId := gs "sx", content := gs "ca", lineNo := 1 }])] }
     let fs : Indexer.FS := { file := [gs "l1"] }
     let r := Indexer.deleteMessage st fs .renameErr (gs "sx") (gs "a")
     r.1.isOk = false ∧ r.2.1 = st ∧ r.2.2.file = fs.file ∧ r.2.2.tmp = none) := by
  exact c3_delete_failure_preserves_state _ _ _ _ _ _ (by simp) rfl rfl

/-- C4 (counterexample): a claude session whose title was already set from
its first message has that title silently replaced when a later line of the
same file is a summary record - no retitle operation is involved, so the
title is not set once. -/
theorem c4_title_set_once_counterexample :
    (let env : Indexer.MetaEnv := fun _ => none
     let key := gs "claude:proj:abc"
     let path := gs "/home/u/.claude/proj/abc.jsonl"
     let st1 := Indexer.tailLines env
       ({ claudeDir := gs "/home/u/.claude" } : Indexer.IndexState)
       (gs "claude") (gs "proj") key path
       [Indexer.RawLine.obj
         [(gs "id", Indexer.JVal.str (gs "m1")),
          (gs "role", Indexer.JVal.str (gs "user")),
          (gs "content", Indexer.JVal.str (gs "first message text"))]]
     let st2 := Indexer.ingestLine env st1 (gs "claude") (gs "proj") key path
       (Indexer.RawLine.obj
         [(gs "type", Indexer.JVal.str (gs "summary")),
          (gs "summary", Indexer.JVal.str (gs "A better title"))])
     (Indexer.alookup st1.sessions key).map (fun s => s.title)
         = some (gs "first message text")
       ∧ (Indexer.alookup st2.sessions key).map (fun s => s.title)
         = some (gs "A better title")) := by
  exact ⟨rfl, rfl⟩

/-- C4 (amended): once a session's title is non-empty, ingesting any further
line never changes it, EXCEPT that for the claude provider a record whose
type is "summary" (case-insensitive) with a non-empty summary field
unconditionally replaces the title of the file's session.  The derivation
chain behaves as claimed: an explicit title field beats the content, content
that equals the session id or looks like an environment-context blob is
rejected in favour of the CWD basename fallback, a persisted custom title
overrides a derived one at session creation, and the explicit retitle
operation replaces the title. -/
theorem c4_title_set_once_amended :
    (∀ (env : Indexer.MetaEnv) (st : Indexer.IndexState)
        (provider project sessionID path k : Str) (line : Indexer.RawLine)
        (sess : Indexer.Session),
        Indexer.alookup st.sessions k = some sess →
        sess.title ≠ [] →
        (∀ raw, line = Indexer.RawLine.obj raw → provider = gs "claude" →
          k = sessionID →
          ¬(goToLower (Indexer.stringOr (Indexer.jget raw (gs "type"))) = gs "summary"
            ∧ Indexer.stringOr (Indexer.jget raw (gs "summary")) ≠ [])) →
        ∃ sess2,
          Indexer.alookup
              (Indexer.ingestLine env st provider project sessionID path line).sessions k
            = some sess2 ∧ sess2.title = sess.title)
    ∧ (Indexer.applyTitle { id := gs "ses_1" }
        [(gs "title", Indexer.JVal.str (gs "Explicit"))] (gs "some content")).title
        = gs "Explicit"
    ∧ (Indexer.applyTitle { id := gs "ses_1" } [] (gs "Fix the bug")).title
        = gs "Fix the bug"
    ∧ (Indexer.applyTitle { id := gs "ses_1", cwdBase := gs "myproj" } []
        (gs "ses_1")).title = gs "myproj"
    ∧ (Indexer.applyTitle { id := gs "ses_1", cwdBase := gs "myproj" } []
        (gs "<environment_context> <cwd>/x</cwd> </environment_context>")).title
        = gs "myproj"
    ∧ (let stM : Indexer.IndexState :=
         { sessions := [(gs "s1", { id := gs "s1", title := gs "Derived" })] }
       (Indexer.alookup
           (Indexer.loadSessionMetadata (fun _ => some (gs "Custom")) stM
             (gs "s1") (gs "codex") []).sessions (gs "s1")).map (fun s => s.title)
         = some (gs "Custom"))
    ∧ (let stU : Indexer.IndexState :=
         { sessions := [(gs "s1", { id := gs "s1", title := gs "Old" })] }
       let r := Indexer.updateSessionTitle stU (gs "s1") (gs "New")
       r.1 = .ok ()
         ∧ (Indexer.alookup r.2.sessions (gs "s1")).map (fun s => s.title)
           = some (gs "New")) := by
  exact ⟨fun env st provider project sessionID path k line sess hsess ht hexc =>
      Indexer.ingestLine_title_preserved env st provider project sessionID path
        line k sess hsess ht hexc,
    rfl, rfl, rfl, rfl, rfl, rfl, rfl⟩

/-- Witness for C4: a titled codex session ingesting a further ordinary
message keeps its title. -/
theorem c4_title_set_once_amended_witness :
    (let env0 : Indexer.MetaEnv := fun _ => none
     let stW : Indexer.IndexState :=
       { sessions := [(gs "s1", { id := gs "s1", title := gs "Kept title" })] }
     let lineW := Indexer.RawLine.obj
       [(gs "id", Indexer.JVal.str (gs "m2")),
        (gs "content", Indexer.JVal.str (gs "another message"))]
     ∃ sess2,
       Indexer.alookup (Indexer.ingestLine env0 stW (gs "codex") [] (gs "s1")
           (gs "/c/s1.jsonl") lineW).sessions (gs "s1") = some sess2
         ∧ sess2.title = gs "Kept title") := by
  exact c4_title_set_once_amended.1 (fun _ => none)
    { sessions := [(gs "s1", { id := gs "s1", title := gs "Kept title" })] }
    (gs "codex") [] (gs "s1") (gs "/c/s1.jsonl") (gs "s1")
    (Indexer.RawLine.obj
      [(gs "id", Indexer.JVal.str (gs "m2")),
       (gs "content", Indexer.JVal.str (gs "another message"))])
    { id := gs "s1", title := gs "Kept title" }
    rfl (by decide) (fun raw hraw hp hk => absurd hp (by decide))

/-- C10 (counterexample): tokenize trims the raw query before scanning, so
for an unclosed quote the phrase value is the remainder of the TRIMMED
query, not of the query itself: the trailing space of the query
quote-a-b-space is dropped from the phrase value. -/
theorem c10_unclosed_quote_counterexample :
    (Search.parse (gs "\"ab ") []).groups
      = [[{ kind := Search.ClauseKind.phrase, value := gs "ab" }]]
    ∧ gs "ab" ≠ gs "ab " := by
  exact ⟨rfl, by decide⟩

/-- C10 (amended): for every query whose trimmed text splits as a prefix,
an unmatched double quote (no later quote follows) that the tokenize scan
reaches at the start of a token - the prefix is consumed by complete scan
steps (spaces, negation signs, bare, field, phrase and regex tokens none
of whose extents reaches the quote), arriving with pending negation flag
neg - Parse does not fail and drops nothing from the trimmed query: the
token list ends with a phrase token wrapping exactly the characters after
the quote, and the last clause of the last OR-group of the parsed query is
a single phrase clause holding all of them as its value, negated per neg.
(Leading and trailing whitespace of the raw query is removed before
tokenizing, so characters of a trailing whitespace run are not part of the
phrase value.) -/
theorem c10_unclosed_quote_amended :
    ∀ (s scopeStr a b : Str) (neg : Bool),
      goTrimSpace s = a ++ '"' :: b →
      '"' ∉ b →
      Search.reachesQuote (a.length + 1) a = some neg →
      (∃ pre, Search.tokenize s
          = pre ++ [{ raw := '"' :: (b ++ ['"']), negative := neg }])
      ∧ (Search.parse s scopeStr).groups ≠ []
      ∧ ((Search.parse s scopeStr).groups.getLastD []).getLastD {}
          = { kind := Search.ClauseKind.phrase, value := b, negative := neg } := by
  intro s scopeStr a b neg htrim hb hreach
  have hreach2 : Search.reachesQuote ((a ++ '"' :: b).length + 1) a = some neg :=
    Search.reachesQuote_mono (a.length + 1) a neg ((a ++ '"' :: b).length + 1)
      (by simp only [List.length_append, List.length_cons]; omega) hreach
  obtain ⟨pre, hpre⟩ :=
    Search.tokLoopF_quote_gen b hb ((a ++ '"' :: b).length + 1) a neg hreach2
  have htok : Search.tokenize s
      = pre ++ [{ raw := '"' :: (b ++ ['"']), negative := neg }] := by
    rw [Search.tokenize, htrim]
    exact hpre
  have hgr : (Search.parse s scopeStr).groups
      = Search.parseToDNF
          (pre.filter (fun t => !(t.isField && t.field = gs "in"))
            ++ [{ raw := '"' :: (b ++ ['"']), negative := neg }]) := by
    simp only [Search.parse, Search.foldl_scopeStep_snd, List.nil_append]
    rw [htok, List.filter_append]
    rfl
  obtain ⟨pre2, hpre2⟩ :
      ∃ pre2, pre.filter (fun t => !(t.isField && t.field = gs "in")) = pre2 :=
    ⟨_, rfl⟩
  rw [hpre2] at hgr
  have hgroups : Search.parseToDNF
        (pre2 ++ [{ raw := '"' :: (b ++ ['"']), negative := neg }])
      = (pre2.foldl Search.dnfStep ([], [])).1
        ++ [(pre2.foldl Search.dnfStep ([], [])).2
            ++ [{ kind := Search.ClauseKind.phrase, value := b, negative := neg }]] := by
    simp only [Search.parseToDNF, List.foldl_append, List.foldl_cons, List.foldl_nil]
    rw [Search.dnfStep_plain (pre2.foldl Search.dnfStep ([], []))
      { raw := '"' :: (b ++ ['"']), negative := neg } rfl rfl]
    rw [Search.clauseOfToken_phrase]
    have h1 : ((pre2.foldl Search.dnfStep
          (([], []) : List (List Search.Clause) × List Search.Clause)).2
        ++ [{ kind := Search.ClauseKind.phrase, value := b, negative := neg }]) ≠ [] := by
      simp
    rw [if_pos h1, if_neg (by simp)]
  refine ⟨⟨pre, htok⟩, ?_, ?_⟩
  · rw [hgr, hgroups]
    simp
  · rw [hgr, hgroups, List.getLastD_concat, List.getLastD_concat]

/-- Witness for C10: three unclosed-quote queries whose prefixes exercise a
field token, a negation applying to the quote itself, and an earlier
closed phrase; in each the characters after the unmatched quote form the
value of the final phrase clause. -/
theorem c10_unclosed_quote_amended_witness :
    ((∃ pre, Search.tokenize (gs "role:user \"wor ld")
        = pre ++ [{ raw := '"' :: (gs "wor ld" ++ ['"']), negative := false }])
     ∧ (Search.parse (gs "role:user \"wor ld") []).groups ≠ []
     ∧ ((Search.parse (gs "role:user \"wor ld") []).groups.getLastD []).getLastD {}
         = { kind := Search.ClauseKind.phrase, value := gs "wor ld", negative := false })
    ∧ ((∃ pre, Search.tokenize (gs "-\"wor ld")
        = pre ++ [{ raw := '"' :: (gs "wor ld" ++ ['"']), negative := true }])
     ∧ (Search.parse (gs "-\"wor ld") []).groups ≠ []
     ∧ ((Search.parse (gs "-\"wor ld") []).groups.getLastD []).getLastD {}
         = { kind := Search.ClauseKind.phrase, value := gs "wor ld", negative := true })
    ∧ ((∃ pre, Search.tokenize (gs "\"done\" \"wor ld")
        = pre ++ [{ raw := '"' :: (gs "wor ld" ++ ['"']), negative := false }])
     ∧ (Search.parse (gs "\"done\" \"wor ld") []).groups ≠ []
     ∧ ((Search.parse (gs "\"done\" \"wor ld") []).groups.getLastD []).getLastD {}
         = { kind := Search.ClauseKind.phrase, value := gs "wor ld", negative := false }) := by
  exact ⟨c10_unclosed_quote_amended (gs "role:user \"wor ld") [] (gs "role:user ")
      (gs "wor ld") false rfl (by decide) (by decide),
    c10_unclosed_quote_amended (gs "-\"wor ld") [] (gs "-")
      (gs "wor ld") true rfl (by decide) (by decide),
    c10_unclosed_quote_amended (gs "\"done\" \"wor ld") [] (gs "\"done\" ")
      (gs "wor ld") false rfl (by decide) (by decide)⟩

end CodexWatcher
